import Mathlib

/-!
# EZ-Money-BE: the transcript-to-entry parsing pipeline

A shallow embedding of `internal/http/handlers.go` (`handleParse`, `ensureDate`,
`needsDateConfirmation`, `loadLocationOrIndia`, `updateProfile`), `internal/ai/openai.go`
(`Transcribe`, `ParseText`), `internal/http/auth.go` (`authOtpVerify`, `generateUUID`,
`generateToken`), `internal/http/middleware.go` (`AuthMiddleware`) and
`internal/models/entry.go` (`StringArray`), followed by theorems about them.

Conventions of the embedding
* Go strings and textual `[]byte` values are Lean `String`s; audio bytes are `List Nat`.
* The environment of a request (zone database, wall clock, the two remote services, the
  JSON codec and the compiled schema) is a record of functions, `Env`; every theorem
  quantifies over it.
* A Go `map[string]any` is `Option (List (String × Any))`: `none` is the nil map, and an
  association list read at its first matching key is a non-nil map.
* A handler run is its response together with the ordered list of stage invocations;
  `Outcome` lists the ways a run of `handleParse` can end, and `handleParse_outcome` shows
  that every run is one of them.
* The database of `updateProfile` is a record of its three queries, `ProfileDB`.
* `encoding/json` on a `[]string` is modelled by the writer `Marshal` and by a reader that
  takes the text character by character through the states `ScanState`.
-/

namespace EZMoney

/-! ## Strings -/

/-- Go `unicode.IsSpace`: the Latin-1 spaces and the code points with the White_Space
property. -/
def isSpace (c : Char) : Bool :=
  let n := c.toNat
  decide ((9 ≤ n ∧ n ≤ 13) ∨ n = 0x20 ∨ n = 0x85 ∨ n = 0xA0 ∨ n = 0x1680 ∨
    (0x2000 ≤ n ∧ n ≤ 0x200A) ∨ n = 0x2028 ∨ n = 0x2029 ∨ n = 0x202F ∨ n = 0x205F ∨
    n = 0x3000)

/-- Go `strings.TrimSpace` on the characters of a string: leading and trailing white
space removed. -/
def trimChars (l : List Char) : List Char :=
  ((l.dropWhile isSpace).reverse.dropWhile isSpace).reverse

/-- Go `strings.TrimSpace`. -/
def TrimSpace (s : String) : String := ⟨trimChars s.data⟩

/-! ## Time zones and calendar dates (package `time`) -/

/-- A `*time.Location`: a zone read from the time-zone database, or a `time.FixedZone`. -/
inductive Location
  | zone (name : String)
  | fixedZone (name : String) (offset : Int)
  deriving DecidableEq, Repr

/-- The calendar date of a `time.Time` in its location. -/
structure Date where
  year : Int
  month : Nat
  day : Nat
  deriving DecidableEq, Repr

/-- Go `time.isLeap`. -/
def isLeap (year : Int) : Bool :=
  decide (year % 4 = 0 ∧ (year % 100 ≠ 0 ∨ year % 400 = 0))

/-- Go `time.daysIn`: the number of days of month `m` in `year`. -/
def daysIn (m : Nat) (year : Int) : Nat :=
  if m = 2 then (if isLeap year then 29 else 28)
  else if m = 4 ∨ m = 6 ∨ m = 9 ∨ m = 11 then 30
  else 31

/-- Go `time.utod`-style digit: the character of a decimal digit. -/
def digitChar (n : Nat) : Char := Char.ofNat (48 + n)

/-- The value of a decimal digit character. -/
def digitVal (c : Char) : Nat := c.toNat - 48

/-- Go `time.appendInt`: `x` in decimal, zero-padded to `width` digits, with a leading
minus sign when negative. The two short cuts are the ones of the library. -/
def appendInt (x : Int) (width : Nat) : List Char :=
  let u := x.natAbs
  let sign : List Char := if x < 0 then ['-'] else []
  if width = 2 ∧ u < 100 then
    sign ++ [digitChar (u / 10), digitChar (u % 10)]
  else if width = 4 ∧ u < 10000 then
    sign ++ [digitChar (u / 1000), digitChar (u / 100 % 10), digitChar (u / 10 % 10),
      digitChar (u % 10)]
  else
    sign ++ List.replicate (width - (Nat.toDigits 10 u).length) '0' ++ Nat.toDigits 10 u

/-- Go `t.Format("2006-01-02")` on the date of `t`. -/
def Format (d : Date) : String :=
  ⟨appendInt d.year 4 ++ ['-'] ++ appendInt d.month 2 ++ ['-'] ++ appendInt d.day 2⟩

/-- Go `time.Parse("2006-01-02", value)`: four digits, a hyphen, two digits, a hyphen, two
digits and nothing else; the month in 1..12 and the day within the month. `none` is a
parse error. -/
def Parse (value : String) : Option Date :=
  match value.data with
  | [y1, y2, y3, y4, s1, m1, m2, s2, d1, d2] =>
    if y1.isDigit ∧ y2.isDigit ∧ y3.isDigit ∧ y4.isDigit ∧ s1 = '-' ∧
        m1.isDigit ∧ m2.isDigit ∧ s2 = '-' ∧ d1.isDigit ∧ d2.isDigit then
      let year : Nat := digitVal y1 * 1000 + digitVal y2 * 100 + digitVal y3 * 10 + digitVal y4
      let month := digitVal m1 * 10 + digitVal m2
      let day := digitVal d1 * 10 + digitVal d2
      if month = 0 ∨ 12 < month then none
      else if day < 1 ∨ daysIn month year < day then none
      else some ⟨year, month, day⟩
    else none
  | _ => none

/-- Function `loadLocationOrIndia` of handlers.go, over the zone loader
`time.LoadLocation` (`none` is a load error). -/
def loadLocationOrIndia (LoadLocation : String → Option Location)
    (requested fallback : String) : Location :=
  let requested := if TrimSpace requested = "" then fallback else requested
  let requested := if TrimSpace requested = "" then "Asia/Kolkata" else requested
  match LoadLocation requested with
  | some loc => loc
  | none =>
    match LoadLocation "Asia/Kolkata" with
    | some loc => loc
    | none => Location.fixedZone "IST" (5 * 3600 + 1800)

/-! ## Decoded JSON values and Go maps -/

/-- A value of Go type `any` as `encoding/json` produces it: nil, bool, float64 (kept as
the text of the number, which no function here inspects), string, `[]any`,
`map[string]any`. -/
inductive Any
  | null
  | bool (b : Bool)
  | num (lit : String)
  | str (s : String)
  | arr (xs : List Any)
  | obj (kvs : List (String × Any))

/-- A Go `map[string]any` variable: `none` is the nil map. -/
abbrev GoMap := Option (List (String × Any))

/-- Reading key `k` of a non-nil map. -/
def lookup (k : String) : List (String × Any) → Option Any
  | [] => none
  | (k2, v) :: rest => if k2 = k then some v else lookup k rest

/-- The map after `m[k] = v` on a non-nil map. -/
def assign (k : String) (v : Any) : List (String × Any) → List (String × Any)
  | [] => [(k, v)]
  | (k2, v2) :: rest => if k2 = k then (k, v) :: rest else (k2, v2) :: assign k v rest

/-- Reading `m[k]`; a nil map reads as empty. -/
def index (m : GoMap) (k : String) : Option Any :=
  match m with
  | none => none
  | some kvs => lookup k kvs

/-- The first result of the two-value type assertion `v.(string)`: the string, or ""
when the value is absent or of another type. -/
def assertString : Option Any → String
  | some (Any.str s) => s
  | _ => ""

/-- Function `needsDateConfirmation` of handlers.go. -/
def needsDateConfirmation (entry : GoMap) : Bool :=
  match index entry "needs_confirmation" with
  | some (Any.obj raw) =>
    match lookup "date" raw with
    | some (Any.bool val) => val
    | _ => false
  | _ => false

/-! ## Configuration and environment -/

/-- The fields of `config.Config` the pipeline reads. -/
structure Config where
  TZDefault : String
  OpenAIKey : String
  OpenAIBaseURL : String
  OpenAILlmModel : String
  OpenAIWhisper : String
  ReqTimeoutSec : Int
  MaxUploadMB : Int

/-- An HTTP response of a remote service: status code and body. -/
structure HttpResponse where
  StatusCode : Nat
  Body : String

/-- The request `Transcribe` sends. -/
structure SttRequest where
  url : String
  authorization : String
  filename : String
  file : List Nat
  model : String

/-- The request `ParseText` sends: the JSON body has the model, the response format
`json_object`, the system message and the user message. -/
structure ChatRequest where
  url : String
  authorization : String
  model : String
  responseFormat : String
  system : String
  user : String

/-- The result of `gojsonschema` validation: `Valid()` and `Errors()` (each error as its
`String()`). -/
structure ValidationResult where
  Valid : Bool
  Errors : List String

/-- Everything outside the handler that a request depends on. -/
structure Env where
  cfg : Config
  /-- The embedded prompt file. -/
  promptText : String
  /-- `time.LoadLocation`; `none` is an error. -/
  LoadLocation : String → Option Location
  /-- The calendar date of `time.Now().In(loc)`. -/
  nowIn : Location → Date
  /-- The HTTP round trip of `Transcribe`; an error is a transport error (an expired
  deadline included). -/
  sttDo : SttRequest → Except String HttpResponse
  /-- Decoding the transcription body into its `text` field. -/
  decodeText : String → Except String String
  /-- The HTTP round trip of `ParseText`. -/
  chatDo : ChatRequest → Except String HttpResponse
  /-- Decoding the completion body into the `message.content` of its choices. -/
  decodeChoices : String → Except String (List String)
  /-- Reading a text as one JSON value; `none` is a syntax error. -/
  jsonValue : String → Option Any
  /-- Go `json.Marshal` of a map. -/
  jsonMarshal : GoMap → Except String String
  /-- Go `validator.Validate` on a bytes loader. -/
  validate : String → Except String ValidationResult

/-- Method `ensureDate` of handlers.go. The Go method mutates `entry` and returns a bool;
here the map after the call is returned with the bool. An error is a run-time panic. -/
def ensureDate (env : Env) (entry : GoMap) (transcript tz : String) :
    Except String (GoMap × Bool) :=
  let _ := transcript
  let loc := loadLocationOrIndia env.LoadLocation tz env.cfg.TZDefault
  let now := env.nowIn loc
  let dateStr := assertString (index entry "date")
  let dateStr := TrimSpace dateStr
  let parsedErr := (Parse dateStr).isNone
  let desired : String :=
    if needsDateConfirmation entry then Format now
    else if dateStr = "" ∨ parsedErr then Format now
    else ""
  if desired = "" then Except.ok (entry, false)
  else
    match entry with
    | none => Except.error "assignment to entry in nil map"
    | some kvs => Except.ok (some (assign "date" (Any.str desired) kvs), true)

/-! ## The two remote services (`internal/ai/openai.go`) -/

/-- Method `Transcribe` of openai.go. Writing the multipart body into a memory buffer does
not fail, so the `io.Copy` error branch is not reachable and is left out. -/
def Transcribe (env : Env) (filename : String) (data : List Nat) : Except String String :=
  if env.cfg.OpenAIKey = "" then Except.error "OPENAI_API_KEY missing"
  else
    match env.sttDo
        { url := env.cfg.OpenAIBaseURL ++ "/audio/transcriptions"
          authorization := "Bearer " ++ env.cfg.OpenAIKey
          filename := filename
          file := data
          model := env.cfg.OpenAIWhisper } with
    | Except.error err => Except.error err
    | Except.ok resp =>
      if resp.StatusCode ≥ 300 then Except.error ("whisper error: " ++ resp.Body)
      else
        match env.decodeText resp.Body with
        | Except.error err => Except.error err
        | Except.ok text => Except.ok (TrimSpace text)

/-- The location `ParseText` computes "today" in (openai.go, lines 72-78). -/
def ParseTextLocation (env : Env) (tz : String) : Location :=
  match env.LoadLocation tz with
  | some loc => loc
  | none =>
    match env.LoadLocation "Asia/Kolkata" with
    | some loc => loc
    | none => Location.fixedZone "IST" (5 * 3600 + 1800)

/-- The request `ParseText` builds (openai.go, lines 79-92). -/
def ParseTextRequest (env : Env) (transcript tz : String) : ChatRequest :=
  let nowStr := Format (env.nowIn (ParseTextLocation env tz))
  { url := env.cfg.OpenAIBaseURL ++ "/chat/completions"
    authorization := "Bearer " ++ env.cfg.OpenAIKey
    model := env.cfg.OpenAILlmModel
    responseFormat := "json_object"
    system := env.promptText
    user := "Context: Timezone is " ++ tz ++ ". Today is " ++ nowStr ++ ".\nText: " ++
      transcript }

/-- Method `ParseText` of openai.go. -/
def ParseText (env : Env) (transcript tz : String) : Except String String :=
  if env.cfg.OpenAIKey = "" then Except.error "OPENAI_API_KEY missing"
  else
    match env.chatDo (ParseTextRequest env transcript tz) with
    | Except.error err => Except.error err
    | Except.ok resp =>
      if resp.StatusCode ≥ 300 then Except.error ("llm error: " ++ resp.Body)
      else
        match env.decodeChoices resp.Body with
        | Except.error err => Except.error err
        | Except.ok [] => Except.error "no choices"
        | Except.ok (content :: _) => Except.ok content

/-! ## The handler (`internal/http/handlers.go`) -/

/-- Go `json.Unmarshal(data, &m)` for a fresh `m` of type `map[string]any`: a syntax error
and a JSON array, string, number or boolean are errors; a JSON object fills the map; the
JSON value null is no error and leaves the map nil. -/
def Unmarshal (env : Env) (data : String) : Except String GoMap :=
  match env.jsonValue data with
  | none => Except.error "invalid JSON"
  | some Any.null => Except.ok none
  | some (Any.obj kvs) => Except.ok (some kvs)
  | some _ => Except.error "json: cannot unmarshal into Go value of type map[string]any"

/-- The uploaded file of the form field `audio`: the header and the result of reading the
body (`none` when `io.Copy` fails). -/
structure FileHeader where
  Filename : String
  Size : Int
  content : Option (List Nat)

/-- The multipart form of a parse request; an absent text field reads as "". -/
structure ParseRequest where
  tz : String
  hint_text : String
  file : Option FileHeader

/-- A stage invocation of a handler run. -/
inductive Call
  | Transcribe (filename : String) (data : List Nat)
  | ParseText (transcript tz : String)
  | Unmarshal (data : String)
  | ensureDate (entry : GoMap) (transcript tz : String)
  | Marshal (entry : GoMap)
  | Validate (data : String)

/-- What the client receives: `c.JSON(code, gin.H ...)`, `c.Data(code, contentType, data)`,
or, when the handler panics, the bare 500 of `gin.Recovery`. -/
inductive Response
  | JSON (code : Nat) (obj : List (String × Any))
  | Data (code : Nat) (contentType : String) (data : String)
  | panicked (msg : String)

/-- A handler run: the stages invoked, in order, and the response. -/
structure Run where
  calls : List Call
  response : Response

/-- Two's-complement wrap-around of `int64` arithmetic. -/
def wrap64 (x : Int) : Int := (x + 2 ^ 63) % 2 ^ 64 - 2 ^ 63

/-- The Go expression `s.cfg.MaxUploadMB*1024*1024` (type `int64`). -/
def uploadLimit (cfg : Config) : Int := wrap64 (wrap64 (cfg.MaxUploadMB * 1024) * 1024)

/-- Lines 149-164 of `handleParse`: schema validation and the success response. -/
def handleParseValidate (env : Env) (transcript : String) (calls : List Call)
    (parsed : String) : Run :=
  let calls := calls ++ [Call.Validate parsed]
  match env.validate parsed with
  | Except.error _ => ⟨calls, Response.JSON 500 [("error", Any.str "validation_failed")]⟩
  | Except.ok res =>
    if !res.Valid then
      ⟨calls, Response.JSON 422 [("error", Any.str "schema_invalid"),
        ("details", Any.arr (res.Errors.map Any.str)), ("transcript", Any.str transcript)]⟩
    else ⟨calls, Response.Data 200 "application/json" parsed⟩

/-- Lines 135-147 of `handleParse`: decoding the extraction output and resolving the
date, then on to validation. -/
def handleParseDecode (env : Env) (transcript tz : String) (calls : List Call)
    (parsed : String) : Run :=
  let calls := calls ++ [Call.Unmarshal parsed]
  match Unmarshal env parsed with
  | Except.error _ => ⟨calls, Response.JSON 500 [("error", Any.str "invalid_parse_response")]⟩
  | Except.ok parsedObj =>
    let calls := calls ++ [Call.ensureDate parsedObj transcript tz]
    match ensureDate env parsedObj transcript tz with
    | Except.error msg => ⟨calls, Response.panicked msg⟩
    | Except.ok (entry, true) =>
      let calls := calls ++ [Call.Marshal entry]
      match env.jsonMarshal entry with
      | Except.error _ => ⟨calls, Response.JSON 500 [("error", Any.str "serialization_failed")]⟩
      | Except.ok parsed => handleParseValidate env transcript calls parsed
    | Except.ok (_, false) => handleParseValidate env transcript calls parsed

/-- Lines 121-133 of `handleParse`: the hint-text fall-back, the transcript requirement
and the extraction call. -/
def handleParseText (env : Env) (req : ParseRequest) (tz : String) (calls : List Call)
    (transcript : String) : Run :=
  let transcript := if transcript = "" then req.hint_text else transcript
  if TrimSpace transcript = "" then
    ⟨calls, Response.JSON 400 [("error", Any.str "no audio or hint_text provided")]⟩
  else
    let calls := calls ++ [Call.ParseText transcript tz]
    match ParseText env transcript tz with
    | Except.error _ =>
      ⟨calls, Response.JSON 422 [("error", Any.str "could_not_parse"),
        ("transcript", Any.str transcript)]⟩
    | Except.ok parsed => handleParseDecode env transcript tz calls parsed

/-- Method `handleParse` of handlers.go. -/
def handleParse (env : Env) (req : ParseRequest) : Run :=
  let tz := if req.tz = "" then env.cfg.TZDefault else req.tz
  match req.file with
  | none => handleParseText env req tz [] ""
  | some header =>
    if header.Size > uploadLimit env.cfg then
      ⟨[], Response.JSON 413 [("error", Any.str "file too large")]⟩
    else
      match header.content with
      | none => ⟨[], Response.JSON 400 [("error", Any.str "failed to read file")]⟩
      | some buf =>
        match Transcribe env header.Filename buf with
        | Except.ok t => handleParseText env req tz [Call.Transcribe header.Filename buf] t
        | Except.error _ =>
          handleParseText env req tz [Call.Transcribe header.Filename buf] ""

/-! ## Sample data for the concrete evaluations -/

/-- A zone database that knows "Europe/London" and "Asia/Kolkata" only. -/
def sampleLoad (name : String) : Option Location :=
  if name = "Europe/London" ∨ name = "Asia/Kolkata" then some (Location.zone name) else none

/-- A configuration with default zone "Europe/London" and a 15 MB upload ceiling. -/
def sampleCfg : Config :=
  { TZDefault := "Europe/London"
    OpenAIKey := "sk-test"
    OpenAIBaseURL := "https://api.openai.com/v1"
    OpenAILlmModel := "gpt-4o-mini"
    OpenAIWhisper := "whisper-1"
    ReqTimeoutSec := 30
    MaxUploadMB := 15 }

/-- An environment in which it is 4 November 2026 everywhere, the transcription service
answers 503, and the completion service answers 200 with the single choice `null`. -/
def sampleEnv : Env :=
  { cfg := sampleCfg
    promptText := "You extract expense entries."
    LoadLocation := sampleLoad
    nowIn := fun _ => ⟨2026, 11, 4⟩
    sttDo := fun _ => Except.ok ⟨503, "unavailable"⟩
    decodeText := fun body => Except.ok body
    chatDo := fun _ => Except.ok ⟨200, "null"⟩
    decodeChoices := fun body => Except.ok [body]
    jsonValue := fun text => if text = "null" then some Any.null else none
    jsonMarshal := fun _ => Except.error "unused"
    validate := fun _ => Except.ok ⟨true, []⟩ }

/-- The environment `sampleEnv` with a completion service that returns no choice. -/
def sampleEnvNoChoices : Env :=
  { sampleEnv with decodeChoices := fun _ => Except.ok [] }

/-- A request with a 1024-byte audio file, a blank hint text and no `tz`. -/
def sampleBlankHint : ParseRequest :=
  { tz := "", hint_text := " ", file := some ⟨"note.m4a", 1024, some [82, 73, 70, 70]⟩ }

/-- A request with a 1024-byte audio file, a hint text and the zone "Asia/Kolkata". -/
def sampleWithHint : ParseRequest :=
  { tz := "Asia/Kolkata", hint_text := "paid 500 for tea",
    file := some ⟨"note.m4a", 1024, some [82, 73, 70, 70]⟩ }

/-- A request with hint text only. -/
def sampleTextOnly : ParseRequest :=
  { tz := "", hint_text := "Paid 500 for groceries today", file := none }

/-- A request whose audio file is one byte over 15 MB. -/
def sampleOversize : ParseRequest :=
  { tz := "", hint_text := "paid 500 for tea",
    file := some ⟨"long.m4a", 15728641, some []⟩ }

/-! ## Spec-side definitions -/

/-- The resolution order as the specification words it: `requested` if non-empty and
loadable, else `configuredDefault` if non-empty and loadable, else "Asia/Kolkata", else the
fixed +5:30 zone. -/
def resolveAsSpecified (load : String → Option Location)
    (requested configuredDefault : String) : Location :=
  match (if requested ≠ "" then load requested else none) with
  | some loc => loc
  | none =>
    match (if configuredDefault ≠ "" then load configuredDefault else none) with
    | some loc => loc
    | none =>
      match load "Asia/Kolkata" with
      | some loc => loc
      | none => Location.fixedZone "IST" 19800

/-- The last two steps of the resolution: the zone "Asia/Kolkata" when it loads, else the
fixed zone 19800 seconds (+5:30) east of UTC. -/
def indiaZone (load : String → Option Location) : Location :=
  match load "Asia/Kolkata" with
  | some loc => loc
  | none => Location.fixedZone "IST" 19800

/-- A date the wall clock can show in four-digit form: year 0..9999, month 1..12, day
within the month. -/
def ValidDate (d : Date) : Prop :=
  0 ≤ d.year ∧ d.year ≤ 9999 ∧ 1 ≤ d.month ∧ d.month ≤ 12 ∧ 1 ≤ d.day ∧
    d.day ≤ daysIn d.month d.year

/-- The entry asks for confirmation of its date: `needs_confirmation` is an object
whose `date` is the boolean true. -/
def FlagsDate (kvs : List (String × Any)) : Prop :=
  ∃ raw, lookup "needs_confirmation" kvs = some (Any.obj raw) ∧
    lookup "date" raw = some (Any.bool true)

instance (d : Date) : Decidable (ValidDate d) := by
  unfold ValidDate
  infer_instance

/-- The HTTP status of a response; a panic is answered 500 by `gin.Recovery`. -/
def Response.code : Response → Nat
  | Response.JSON code _ => code
  | Response.Data code _ _ => code
  | Response.panicked _ => 500

/-- The call is the transcription call. -/
def Call.isTranscribe : Call → Bool
  | Call.Transcribe _ _ => true
  | _ => false

/-- The call belongs to a stage after extraction: decoding, date resolution,
re-serialization or schema validation. -/
def Call.isLater : Call → Bool
  | Call.Unmarshal _ => true
  | Call.ensureDate _ _ _ => true
  | Call.Marshal _ => true
  | Call.Validate _ => true
  | _ => false

/-- The causes for which `ParseText` fails: missing credential, transport error, response
status of 300 or more, undecodable body, zero completions. -/
def ParseTextFails (env : Env) (transcript tz : String) : Prop :=
  env.cfg.OpenAIKey = "" ∨
  (∃ err, env.chatDo (ParseTextRequest env transcript tz) = Except.error err) ∨
  (∃ resp, env.chatDo (ParseTextRequest env transcript tz) = Except.ok resp ∧
    (resp.StatusCode ≥ 300 ∨ (∃ err, env.decodeChoices resp.Body = Except.error err) ∨
      env.decodeChoices resp.Body = Except.ok []))

/-- The zone name the handler works with: the form value `tz`, or the configured default
when that is empty (handlers.go, lines 96-99). -/
def requestTz (env : Env) (req : ParseRequest) : String :=
  if req.tz = "" then env.cfg.TZDefault else req.tz

/-! ## More sample data -/

/-- The environment `sampleEnv` with a completion service that answers in prose. -/
def sampleEnvProse : Env :=
  { sampleEnv with chatDo := fun _ => Except.ok ⟨200, "Sorry, I cannot help."⟩ }

/-- The error text of a round trip cut off by the request deadline
(`context.DeadlineExceeded`). -/
def deadlineExceeded : String := "context deadline exceeded"

/-- The environment `sampleEnv` in which both remote round trips run into the deadline. -/
def sampleEnvTimeout : Env :=
  { sampleEnv with
    sttDo := fun _ => Except.error deadlineExceeded
    chatDo := fun _ => Except.error deadlineExceeded }

/-- A clock at 20:00 UTC on 4 November 2026: the 4th in London, already the 5th in India. -/
def sampleClock (loc : Location) : Date :=
  if loc = Location.zone "Europe/London" then ⟨2026, 11, 4⟩ else ⟨2026, 11, 5⟩

/-- An extracted entry with a well-formed date and no confirmation flag. -/
def sampleEntry : List (String × Any) :=
  [("title", Any.str "Groceries"), ("amount", Any.num "500"), ("type", Any.str "expense"),
    ("date", Any.str "2026-11-03")]

/-- The JSON text of `sampleEntry`. -/
def sampleEntryText : String :=
  "\x7b\"title\":\"Groceries\",\"amount\":500,\"type\":\"expense\",\"date\":\"2026-11-03\"\x7d"

/-- An extracted entry that asks for confirmation of its date. -/
def sampleFlagged : List (String × Any) :=
  [("title", Any.str "Groceries"), ("amount", Any.num "500"), ("type", Any.str "expense"),
    ("needs_confirmation", Any.obj [("date", Any.bool true)])]

/-- The JSON text of `sampleFlagged`. -/
def sampleFlaggedText : String :=
  "\x7b\"title\":\"Groceries\",\"amount\":500,\"type\":\"expense\"," ++
    "\"needs_confirmation\":\x7b\"date\":true\x7d\x7d"

/-- A JSON reader that knows the two sample texts. -/
def sampleJsonValue (text : String) : Option Any :=
  if text = sampleEntryText then some (Any.obj sampleEntry)
  else if text = sampleFlaggedText then some (Any.obj sampleFlagged)
  else none

/-- An environment with the clock `sampleClock` whose completion service returns
`sampleEntryText` and whose schema accepts everything. -/
def sampleEnvEntry : Env :=
  { sampleEnv with
    nowIn := sampleClock
    chatDo := fun _ => Except.ok ⟨200, sampleEntryText⟩
    jsonValue := sampleJsonValue
    jsonMarshal := fun _ => Except.ok "re-serialized"
    validate := fun _ => Except.ok ⟨true, []⟩ }

/-- The environment `sampleEnvEntry` with a schema that reports two violations. -/
def sampleEnvInvalid : Env :=
  { sampleEnvEntry with
    validate := fun _ =>
      Except.ok ⟨false, ["(root): currency is required", "amount: Invalid type"]⟩ }

/-- The environment `sampleEnvEntry` with a completion service that returns
`sampleFlaggedText`. -/
def sampleEnvFlagged : Env :=
  { sampleEnvEntry with chatDo := fun _ => Except.ok ⟨200, sampleFlaggedText⟩ }

/-- A request with hint text only and a `tz` of one blank. -/
def sampleBlankTz : ParseRequest :=
  { tz := " ", hint_text := "Paid 500 for groceries today", file := none }

/-- A request whose hint text has blanks around it. -/
def samplePaddedHint : ParseRequest :=
  { tz := "", hint_text := " paid 500 ", file := none }

/-- An entry that asks for confirmation of its date and is already dated 4 November
2026. -/
def sampleFlaggedToday : List (String × Any) :=
  [("date", Any.str "2026-11-04"), ("needs_confirmation", Any.obj [("date", Any.bool true)])]

/-- A zone database in which no name loads. -/
def sampleLoadNothing (_ : String) : Option Location := none

/-! ## Claim tokens and the profile update (`auth.go`, `handlers.go`) -/

/-- Go `strings.HasPrefix`. -/
def HasPrefix (s pre : String) : Bool := pre.data.isPrefixOf s.data

/-- Go `strings.Contains(s, "@")`. -/
def ContainsAt (s : String) : Bool := s.data.contains '@'

/-- The JSON input of `authOtpVerify`. -/
structure OtpInput where
  Identifier : String
  OTP : String

/-- The claim token `authOtpVerify` builds for an identifier (auth.go, lines 137-142). -/
def claimToken (identifier : String) : String :=
  let pfx := if ContainsAt identifier then "email:" else "phone:"
  "claim_" ++ pfx ++ identifier

/-- Method `authOtpVerify` of auth.go; `bound` is the result of `ShouldBindJSON`, an
error when the body is no JSON or a required field is missing. -/
def authOtpVerify (bound : Except String OtpInput) : Response :=
  match bound with
  | Except.error err => Response.JSON 400 [("error", Any.str err)]
  | Except.ok input =>
    if input.OTP ≠ "123456" ∧ input.OTP ≠ "1234" then
      Response.JSON 401 [("error", Any.str "invalid_otp")]
    else
      Response.JSON 200 [("claim_token", Any.str (claimToken input.Identifier))]

/-- The fields of `models.User`, without the two timestamps that gorm maintains. -/
structure User where
  ID : Nat
  UUID : String
  Email : Option String
  Phone : Option String
  DeviceID : Option String
  PinHash : String
  BiometricsEnabled : Bool
  IsGuest : Bool
  Username : String
  ProfileImage : String
  HasPin : Bool
  deriving DecidableEq, Repr

/-- The JSON payload of `updateProfile`. -/
structure ProfilePayload where
  Username : String
  Email : String
  Phone : String
  ClaimToken : String

/-- The three database operations of `updateProfile`. -/
structure ProfileDB where
  /-- Some other user has this username (`Where("username = ? AND id != ?")` finds a
  row). -/
  usernameTaken : String → Nat → Bool
  /-- The row with this id (`First(&user, userID)`); `none` is an error. -/
  first : Nat → Option User
  /-- Whether `Save(&user)` succeeds. -/
  save : User → Bool

/-- What `updateProfile` answers: `gin.H` with an error text, or with the user. -/
inductive ProfileResponse
  | error (code : Nat) (msg : String)
  | user (code : Nat) (user : User)
  deriving DecidableEq, Repr

/-- A run of `updateProfile`: the response and the row written by a successful `Save`. -/
structure ProfileRun where
  response : ProfileResponse
  saved : Option User
  deriving DecidableEq, Repr

/-- Method `updateProfile` of handlers.go; `userID` is the context value set by the
middleware and `bound` the result of `BindJSON`. -/
def updateProfile (db : ProfileDB) (userID : Option Nat)
    (bound : Except String ProfilePayload) : ProfileRun :=
  match userID with
  | none => ⟨ProfileResponse.error 401 "unauthorized", none⟩
  | some userID =>
    match bound with
    | Except.error err => ⟨ProfileResponse.error 400 err, none⟩
    | Except.ok payload =>
      if TrimSpace payload.Username = "" then
        ⟨ProfileResponse.error 400 "Username cannot be empty", none⟩
      else if db.usernameTaken payload.Username userID then
        ⟨ProfileResponse.error 409 "Username is already taken", none⟩
      else
        match db.first userID with
        | none => ⟨ProfileResponse.error 404 "User not found", none⟩
        | some user =>
          let emailChange : Bool :=
            decide (payload.Email ≠ "" ∧ (user.Email = none ∨ user.Email ≠ some payload.Email))
          if emailChange ∧ ¬ HasPrefix payload.ClaimToken ("claim_email:" ++ payload.Email) then
            ⟨ProfileResponse.error 403 "Email verification required. Please verify OTP.",
              none⟩
          else
            let user := if emailChange then { user with Email := some payload.Email } else user
            let phoneChange : Bool :=
              decide (payload.Phone ≠ "" ∧
                (user.Phone = none ∨ user.Phone ≠ some payload.Phone))
            if phoneChange ∧
                ¬ HasPrefix payload.ClaimToken ("claim_phone:" ++ payload.Phone) then
              ⟨ProfileResponse.error 403 "Phone verification required. Please verify OTP.",
                none⟩
            else
              let user :=
                if phoneChange then { user with Phone := some payload.Phone } else user
              let user := { user with Username := payload.Username }
              if db.save user then ⟨ProfileResponse.user 200 user, some user⟩
              else ⟨ProfileResponse.error 500 "Failed to update profile.", none⟩

/-- A guest user without e-mail address or phone number. -/
def sampleUser : User :=
  { ID := 7, UUID := "0f1e2d3c4b5a69788796a5b4c3d2e1f0", Email := none, Phone := none,
    DeviceID := none, PinHash := "", BiometricsEnabled := false, IsGuest := true,
    Username := "Guest_0f1e2d3c", ProfileImage := "", HasPin := false }

/-- A database that holds `sampleUser` under id 7, has no other user and saves. -/
def sampleDB : ProfileDB :=
  { usernameTaken := fun _ _ => false
    first := fun id => if id = 7 then some sampleUser else none
    save := fun _ => true }

/-! ## Tokens and the authorization middleware (`auth.go`, `middleware.go`) -/

/-- Go `strings.Split(s, sep)` for a separator of one character, on the characters of
`s`: the pieces between the separators, one more than there are separators. -/
def splitChars (sep : Char) : List Char → List (List Char)
  | [] => [[]]
  | c :: rest =>
    if c = sep then [] :: splitChars sep rest
    else
      match splitChars sep rest with
      | [] => [[c]]
      | piece :: pieces => (c :: piece) :: pieces

/-- Go `strings.Split(s, sep)` for a separator of one character. -/
def Split (s : String) (sep : Char) : List String := (splitChars sep s.data).map String.mk

/-- The digit table "0123456789abcdef" of package `hex`. -/
def hexChar (n : Nat) : Char := if n < 10 then Char.ofNat (48 + n) else Char.ofNat (87 + n)

/-- Go `hex.EncodeToString` on the characters: two digits for each byte. -/
def encodeHex : List Nat → List Char
  | [] => []
  | v :: rest => hexChar (v % 256 / 16) :: hexChar (v % 16) :: encodeHex rest

/-- Function `generateUUID` of auth.go; `random` is what `rand.Read` delivers, and a byte
it does not deliver stays zero. -/
def generateUUID (random : List Nat) : String :=
  ⟨encodeHex ((random ++ List.replicate 16 0).take 16)⟩

/-- Function `generateToken` of auth.go, with the random bytes of its `generateUUID`
call. -/
def generateToken (user : User) (random : List Nat) : String :=
  "mock_token_" ++ user.UUID ++ "_" ++ generateUUID random

/-- How the middleware ends: `AbortWithStatusJSON` with an error, or `c.Next()` with the
user and its id stored in the context. -/
inductive AuthResult
  | abort (code : Nat) (error : String)
  | next (user : User) (userID : Nat)
  deriving DecidableEq, Repr

/-- A run of the middleware: the UUID of the user query, when the run comes to it, and
the result. -/
structure AuthRun where
  queried : Option String
  result : AuthResult
  deriving DecidableEq, Repr

/-- Function `AuthMiddleware` of middleware.go on the value of the Authorization header;
`findByUUID` is the query `Where("uuid = ?", uuid).First(&user)`, `none` its error. -/
def AuthMiddleware (findByUUID : String → Option User) (authHeader : String) : AuthRun :=
  if authHeader = "" then ⟨none, AuthResult.abort 401 "authorization_header_missing"⟩
  else
    let parts := Split authHeader ' '
    if parts.length ≠ 2 ∨ parts.getD 0 "" ≠ "Bearer" then
      ⟨none, AuthResult.abort 401 "authorization_header_invalid"⟩
    else
      let token := parts.getD 1 ""
      if ¬ HasPrefix token "mock_token_" then
        ⟨none, AuthResult.abort 401 "invalid_token_format"⟩
      else
        let tokenParts := Split token '_'
        if tokenParts.length < 4 then
          ⟨none, AuthResult.abort 401 "invalid_token_structure"⟩
        else
          let uuid := tokenParts.getD 2 ""
          match findByUUID uuid with
          | none => ⟨some uuid, AuthResult.abort 401 "invalid_token_user_not_found"⟩
          | some user => ⟨some uuid, AuthResult.next user user.ID⟩

/-- Sixteen random bytes. -/
def sampleRandom : List Nat :=
  [0, 17, 34, 51, 68, 85, 102, 119, 136, 153, 170, 187, 204, 221, 238, 255]

/-- A user table that holds `sampleUser` only. -/
def sampleFind (uuid : String) : Option User :=
  if uuid = sampleUser.UUID then some sampleUser else none

/-! ## `StringArray` (`models/entry.go`) and the JSON form of a string list -/

/-- A Go `[]string`: `none` is the nil slice. -/
abbrev StringArray := Option (List String)

/-- Go `len(sa)`. -/
def sliceLen (sa : StringArray) : Nat :=
  match sa with
  | none => 0
  | some l => l.length

/-- The text `encoding/json` writes for one character of a string (HTML escaping on):
a backslash before the quote and the backslash, the short escapes of five control
characters, `\u00XX` for the other control characters and for `<`, `>`, `&`, `\u202X` for
the two line separators, and the character itself otherwise. -/
def escapeChar (c : Char) : List Char :=
  let n := c.toNat
  if c = '"' ∨ c = '\\' then ['\\', c]
  else if n = 8 then ['\\', 'b']
  else if n = 12 then ['\\', 'f']
  else if n = 10 then ['\\', 'n']
  else if n = 13 then ['\\', 'r']
  else if n = 9 then ['\\', 't']
  else if n < 0x20 ∨ c = '<' ∨ c = '>' ∨ c = '&' then
    ['\\', 'u', '0', '0', hexChar (n / 16), hexChar (n % 16)]
  else if n = 0x2028 ∨ n = 0x2029 then ['\\', 'u', '2', '0', '2', hexChar (n % 16)]
  else [c]

/-- The escaped text of the characters of a string. -/
def escapeChars : List Char → List Char
  | [] => []
  | c :: rest => escapeChar c ++ escapeChars rest

/-- The JSON text of a string: its escaped characters between quotes. -/
def quote (s : String) : List Char := '"' :: escapeChars s.data ++ ['"']

/-- The elements of an array as `encoding/json` writes them: a comma before every
element but the first. -/
def encodeElems (first : Bool) : List String → List Char
  | [] => []
  | s :: rest => (if first then [] else [',']) ++ quote s ++ encodeElems false rest

/-- Go `json.Marshal` of a `[]string`: `null` for the nil slice, else the array. It has
no error case for this type. -/
def Marshal (sa : StringArray) : Except String String :=
  match sa with
  | none => Except.ok "null"
  | some l => Except.ok ⟨'[' :: encodeElems true l ++ [']']⟩

/-- The states of reading a JSON text into a `[]string`, character by character: before
the value, inside a top-level `null`, after the bracket, inside a string (`done` holds the
elements read so far, last first; `acc` the characters of the current one, last first;
`pend` a high surrogate that waits for its partner), after a backslash, inside `\uXXXX`,
inside an element `null`, after an element, after a comma, after the value, and the
error state. -/
inductive ScanState
  | start
  | topNull (k : Nat)
  | afterOpen
  | inString (done : List String) (acc : List Char) (pend : Option Nat)
  | escape (done : List String) (acc : List Char) (pend : Option Nat)
  | unicode (done : List String) (acc : List Char) (pend : Option Nat) (count value : Nat)
  | elemNull (done : List String) (k : Nat)
  | afterElem (done : List String)
  | afterComma (done : List String)
  | finished (result : StringArray)
  | failed

/-- JSON white space. -/
def isJsonSpace (c : Char) : Bool := decide (c = ' ' ∨ c = '\t' ∨ c = '\r' ∨ c = '\n')

/-- The value of a hexadecimal digit, in either case. -/
def hexVal (c : Char) : Option Nat :=
  let n := c.toNat
  if 48 ≤ n ∧ n ≤ 57 then some (n - 48)
  else if 97 ≤ n ∧ n ≤ 102 then some (n - 87)
  else if 65 ≤ n ∧ n ≤ 70 then some (n - 55)
  else none

/-- The letter of `null` that follows its first `k` letters. -/
def nullLetter (k : Nat) (c : Char) : Bool :=
  decide ((k = 1 ∧ c = 'u') ∨ (k = 2 ∧ c = 'l') ∨ (k = 3 ∧ c = 'l'))

/-- The replacement character U+FFFD. -/
def replacementChar : Char := Char.ofNat 0xFFFD

/-- The characters so far, with U+FFFD for a high surrogate that found no partner. -/
def flush (acc : List Char) (pend : Option Nat) : List Char :=
  match pend with
  | none => acc
  | some _ => replacementChar :: acc

/-- The state after `\uXXXX` of value `r` with no surrogate waiting: a high surrogate
waits, a low one is replaced, any other value is its character. -/
def unicodeFresh (done : List String) (acc : List Char) (r : Nat) : ScanState :=
  if 0xD800 ≤ r ∧ r < 0xDC00 then ScanState.inString done acc (some r)
  else if 0xDC00 ≤ r ∧ r < 0xE000 then ScanState.inString done (replacementChar :: acc) none
  else ScanState.inString done (Char.ofNat r :: acc) none

/-- The state after `\uXXXX` of value `r`: a waiting high surrogate and a low one make
one character; otherwise the waiting one is replaced and `r` is read afresh. -/
def unicodeDone (done : List String) (acc : List Char) (pend : Option Nat) (r : Nat) :
    ScanState :=
  match pend with
  | some hi =>
    if 0xDC00 ≤ r ∧ r < 0xE000 then
      ScanState.inString done (Char.ofNat (0x10000 + (hi - 0xD800) * 0x400 + (r - 0xDC00)) :: acc)
        none
    else unicodeFresh done (replacementChar :: acc) r
  | none => unicodeFresh done acc r

/-- One character of input. -/
def step (st : ScanState) (c : Char) : ScanState :=
  match st with
  | ScanState.start =>
    if isJsonSpace c then ScanState.start
    else if c = '[' then ScanState.afterOpen
    else if c = 'n' then ScanState.topNull 1
    else ScanState.failed
  | ScanState.topNull k =>
    if nullLetter k c then (if k = 3 then ScanState.finished none else ScanState.topNull (k + 1))
    else ScanState.failed
  | ScanState.afterOpen =>
    if isJsonSpace c then ScanState.afterOpen
    else if c = ']' then ScanState.finished (some [])
    else if c = '"' then ScanState.inString [] [] none
    else if c = 'n' then ScanState.elemNull [] 1
    else ScanState.failed
  | ScanState.inString done acc pend =>
    if c = '"' then ScanState.afterElem (String.mk (flush acc pend).reverse :: done)
    else if c = '\\' then ScanState.escape done acc pend
    else if c.toNat < 0x20 then ScanState.failed
    else ScanState.inString done (c :: flush acc pend) none
  | ScanState.escape done acc pend =>
    if c = '"' ∨ c = '\\' ∨ c = '/' then ScanState.inString done (c :: flush acc pend) none
    else if c = 'b' then ScanState.inString done (Char.ofNat 8 :: flush acc pend) none
    else if c = 'f' then ScanState.inString done (Char.ofNat 12 :: flush acc pend) none
    else if c = 'n' then ScanState.inString done (Char.ofNat 10 :: flush acc pend) none
    else if c = 'r' then ScanState.inString done (Char.ofNat 13 :: flush acc pend) none
    else if c = 't' then ScanState.inString done (Char.ofNat 9 :: flush acc pend) none
    else if c = 'u' then ScanState.unicode done acc pend 0 0
    else ScanState.failed
  | ScanState.unicode done acc pend count value =>
    match hexVal c with
    | none => ScanState.failed
    | some d =>
      if count = 3 then unicodeDone done acc pend (value * 16 + d)
      else ScanState.unicode done acc pend (count + 1) (value * 16 + d)
  | ScanState.elemNull done k =>
    if nullLetter k c then
      (if k = 3 then ScanState.afterElem ("" :: done) else ScanState.elemNull done (k + 1))
    else ScanState.failed
  | ScanState.afterElem done =>
    if isJsonSpace c then ScanState.afterElem done
    else if c = ',' then ScanState.afterComma done
    else if c = ']' then ScanState.finished (some done.reverse)
    else ScanState.failed
  | ScanState.afterComma done =>
    if isJsonSpace c then ScanState.afterComma done
    else if c = '"' then ScanState.inString done [] none
    else if c = 'n' then ScanState.elemNull done 1
    else ScanState.failed
  | ScanState.finished result =>
    if isJsonSpace c then ScanState.finished result else ScanState.failed
  | ScanState.failed => ScanState.failed

/-- Go `json.Unmarshal(data, sa)` for `sa` a pointer to a nil `[]string`: the JSON value
null gives the nil slice, an array of strings and nulls gives its elements (the empty
string for a null), and every other text is an error. -/
def Unmarshal_strings (data : String) : Except String StringArray :=
  match data.data.foldl step ScanState.start with
  | ScanState.finished result => Except.ok result
  | _ => Except.error "json: cannot unmarshal into Go value of type models.StringArray"

/-- A `driver.Value`: nil, `[]byte`, string, int64, float64 (as its text), bool,
`time.Time` (as seconds). -/
inductive DriverValue
  | null
  | bytes (v : String)
  | text (v : String)
  | int64 (v : Int)
  | float64 (lit : String)
  | bool (v : Bool)
  | time (unix : Int)

/-- The Go type name that `%T` prints for a driver value. -/
def DriverValue.typeName : DriverValue → String
  | DriverValue.null => "<nil>"
  | DriverValue.bytes _ => "[]uint8"
  | DriverValue.text _ => "string"
  | DriverValue.int64 _ => "int64"
  | DriverValue.float64 _ => "float64"
  | DriverValue.bool _ => "bool"
  | DriverValue.time _ => "time.Time"

/-- Method `Value` of `StringArray` (entry.go). -/
def Value (sa : StringArray) : Except String String :=
  if sliceLen sa = 0 then Except.ok "[]" else Marshal sa

/-- Method `Scan` of `StringArray` (entry.go): the value of `*sa` after the call, or the
error. -/
def Scan (value : DriverValue) : Except String StringArray :=
  match value with
  | DriverValue.null => Except.ok none
  | _ =>
    let data : Option String :=
      match value with
      | DriverValue.bytes v => some v
      | DriverValue.text v => some v
      | _ => none
    match data with
    | none => Except.error ("unsupported type for StringArray: " ++ value.typeName)
    | some data => if data.length = 0 then Except.ok none else Unmarshal_strings data

/-- Two tags, the second with a quote, a backslash, an angle bracket and a tab. -/
def sampleTags : List String := ["food", "a\"b\\c<d\te"]

/-! ## The runs of the handler as a relation -/

/-- How a run comes to its transcript (handlers.go, lines 101-123): the calls made so far
and the text, which is the hint text when there is no audio or the transcription fails or
is empty, and the transcribed text otherwise. -/
inductive Source (env : Env) (req : ParseRequest) : List Call → String → Prop
  | hintOnly : req.file = none → Source env req [] req.hint_text
  | transcribed (header : FileHeader) (buf : List Nat) (t : String) :
      req.file = some header → ¬ header.Size > uploadLimit env.cfg →
      header.content = some buf → Transcribe env header.Filename buf = Except.ok t →
      t ≠ "" → Source env req [Call.Transcribe header.Filename buf] t
  | fallback (header : FileHeader) (buf : List Nat) :
      req.file = some header → ¬ header.Size > uploadLimit env.cfg →
      header.content = some buf →
      ((∃ err, Transcribe env header.Filename buf = Except.error err) ∨
        Transcribe env header.Filename buf = Except.ok "") →
      Source env req [Call.Transcribe header.Filename buf] req.hint_text

/-- The decoding and date stages on an extraction output (handlers.go, lines 135-147),
when they succeed: the calls made and the bytes handed to the validator. -/
inductive Resolved (env : Env) (transcript tz parsed : String) : List Call → String → Prop
  | kept (parsedObj entry : GoMap) :
      Unmarshal env parsed = Except.ok parsedObj →
      ensureDate env parsedObj transcript tz = Except.ok (entry, false) →
      Resolved env transcript tz parsed
        [Call.Unmarshal parsed, Call.ensureDate parsedObj transcript tz] parsed
  | rewritten (parsedObj entry : GoMap) (body : String) :
      Unmarshal env parsed = Except.ok parsedObj →
      ensureDate env parsedObj transcript tz = Except.ok (entry, true) →
      env.jsonMarshal entry = Except.ok body →
      Resolved env transcript tz parsed
        [Call.Unmarshal parsed, Call.ensureDate parsedObj transcript tz, Call.Marshal entry]
        body

/-- The seven ways a run can end once it calls ParseText on transcript `t`, after the
calls `before`: each with its trace and response. -/
inductive Extraction (env : Env) (req : ParseRequest) (before : List Call) (t : String) :
    Run → Prop
  | couldNotParse (err : String) :
      ParseText env t (requestTz env req) = Except.error err →
      Extraction env req before t
        ⟨before ++ [Call.ParseText t (requestTz env req)],
          Response.JSON 422 [("error", Any.str "could_not_parse"),
            ("transcript", Any.str t)]⟩
  | invalidResponse (parsed err : String) :
      ParseText env t (requestTz env req) = Except.ok parsed →
      Unmarshal env parsed = Except.error err →
      Extraction env req before t
        ⟨before ++ [Call.ParseText t (requestTz env req)] ++ [Call.Unmarshal parsed],
          Response.JSON 500 [("error", Any.str "invalid_parse_response")]⟩
  | panicked (parsed msg : String) (parsedObj : GoMap) :
      ParseText env t (requestTz env req) = Except.ok parsed →
      Unmarshal env parsed = Except.ok parsedObj →
      ensureDate env parsedObj t (requestTz env req) = Except.error msg →
      Extraction env req before t
        ⟨before ++ [Call.ParseText t (requestTz env req)] ++
            [Call.Unmarshal parsed, Call.ensureDate parsedObj t (requestTz env req)],
          Response.panicked msg⟩
  | serializationFailed (parsed err : String) (parsedObj entry : GoMap) :
      ParseText env t (requestTz env req) = Except.ok parsed →
      Unmarshal env parsed = Except.ok parsedObj →
      ensureDate env parsedObj t (requestTz env req) = Except.ok (entry, true) →
      env.jsonMarshal entry = Except.error err →
      Extraction env req before t
        ⟨before ++ [Call.ParseText t (requestTz env req)] ++
            [Call.Unmarshal parsed, Call.ensureDate parsedObj t (requestTz env req),
              Call.Marshal entry],
          Response.JSON 500 [("error", Any.str "serialization_failed")]⟩
  | validationFailed (stage : List Call) (parsed body err : String) :
      ParseText env t (requestTz env req) = Except.ok parsed →
      Resolved env t (requestTz env req) parsed stage body →
      env.validate body = Except.error err →
      Extraction env req before t
        ⟨before ++ [Call.ParseText t (requestTz env req)] ++ stage ++ [Call.Validate body],
          Response.JSON 500 [("error", Any.str "validation_failed")]⟩
  | schemaInvalid (stage : List Call) (parsed body : String) (res : ValidationResult) :
      ParseText env t (requestTz env req) = Except.ok parsed →
      Resolved env t (requestTz env req) parsed stage body →
      env.validate body = Except.ok res → res.Valid = false →
      Extraction env req before t
        ⟨before ++ [Call.ParseText t (requestTz env req)] ++ stage ++ [Call.Validate body],
          Response.JSON 422 [("error", Any.str "schema_invalid"),
            ("details", Any.arr (res.Errors.map Any.str)), ("transcript", Any.str t)]⟩
  | success (stage : List Call) (parsed body : String) (res : ValidationResult) :
      ParseText env t (requestTz env req) = Except.ok parsed →
      Resolved env t (requestTz env req) parsed stage body →
      env.validate body = Except.ok res → res.Valid = true →
      Extraction env req before t
        ⟨before ++ [Call.ParseText t (requestTz env req)] ++ stage ++ [Call.Validate body],
          Response.Data 200 "application/json" body⟩

/-- The ways a run of `handleParse` can end: three before any extraction call, and the
seven of `Extraction` on a non-blank transcript. -/
inductive Outcome (env : Env) (req : ParseRequest) : Run → Prop
  | tooLarge (header : FileHeader) :
      req.file = some header → header.Size > uploadLimit env.cfg →
      Outcome env req ⟨[], Response.JSON 413 [("error", Any.str "file too large")]⟩
  | unreadable (header : FileHeader) :
      req.file = some header → ¬ header.Size > uploadLimit env.cfg →
      header.content = none →
      Outcome env req ⟨[], Response.JSON 400 [("error", Any.str "failed to read file")]⟩
  | noText (before : List Call) (t : String) :
      Source env req before t → TrimSpace t = "" →
      Outcome env req
        ⟨before, Response.JSON 400 [("error", Any.str "no audio or hint_text provided")]⟩
  | extracted (before : List Call) (t : String) (run : Run) :
      Source env req before t → TrimSpace t ≠ "" → Extraction env req before t run →
      Outcome env req run

/-! ## Lemmas on strings, digits and dates -/

theorem isSpace_of_isDigit (c : Char) (h : c.isDigit = true) : isSpace c = false := by
  simp only [Char.isDigit, Bool.and_eq_true, decide_eq_true_eq] at h
  have h1 : 48 ≤ c.toNat := by
    have := h.1
    exact this
  have h2 : c.toNat ≤ 57 := by
    have := h.2
    exact this
  simp only [isSpace, decide_eq_false_iff_not]
  omega

theorem trimChars_nil : trimChars [] = [] := rfl

theorem TrimSpace_empty : TrimSpace "" = "" := rfl

theorem Parse_empty : Parse "" = none := rfl

theorem digitChar_isDigit (n : Nat) (h : n < 10) : (digitChar n).isDigit = true := by
  interval_cases n <;> rfl

theorem digitVal_digitChar (n : Nat) (h : n < 10) : digitVal (digitChar n) = n := by
  interval_cases n <;> rfl

theorem appendInt_four (u : Nat) (h : u < 10000) :
    appendInt (u : Int) 4 =
      [digitChar (u / 1000), digitChar (u / 100 % 10), digitChar (u / 10 % 10),
        digitChar (u % 10)] := by
  have hneg : ¬ ((u : Int) < 0) := by omega
  simp [appendInt, h, hneg]

theorem appendInt_two (u : Nat) (h : u < 100) :
    appendInt (u : Int) 2 = [digitChar (u / 10), digitChar (u % 10)] := by
  have hneg : ¬ ((u : Int) < 0) := by omega
  simp [appendInt, h, hneg]

theorem daysIn_le (m : Nat) (y : Int) : daysIn m y ≤ 31 := by
  unfold daysIn
  split
  · split <;> omega
  · split <;> omega

/-- Formatting a valid date and parsing it back gives the date. -/
theorem Parse_Format (d : Date) (h : ValidDate d) : Parse (Format d) = some d := by
  rcases d with ⟨y, m, dd⟩
  obtain ⟨h0, h1, h2, h3, h4, h5⟩ := h
  simp only at h0 h1 h2 h3 h4 h5
  obtain ⟨u, rfl⟩ := Int.eq_ofNat_of_zero_le h0
  have hu : u < 10000 := by omega
  have hm : m < 100 := by omega
  have hd : dd < 100 := by
    have := daysIn_le m (u : Int)
    omega
  have e1 : digitVal (digitChar (u / 1000)) * 1000 + digitVal (digitChar (u / 100 % 10)) * 100
      + digitVal (digitChar (u / 10 % 10)) * 10 + digitVal (digitChar (u % 10)) = u := by
    rw [digitVal_digitChar _ (by omega), digitVal_digitChar _ (by omega),
      digitVal_digitChar _ (by omega), digitVal_digitChar _ (by omega)]
    omega
  have e2 : digitVal (digitChar (m / 10)) * 10 + digitVal (digitChar (m % 10)) = m := by
    rw [digitVal_digitChar _ (by omega), digitVal_digitChar _ (by omega)]
    omega
  have e3 : digitVal (digitChar (dd / 10)) * 10 + digitVal (digitChar (dd % 10)) = dd := by
    rw [digitVal_digitChar _ (by omega), digitVal_digitChar _ (by omega)]
    omega
  have hm0 : ¬ (m = 0 ∨ 12 < m) := by omega
  have hd0 : ¬ (dd < 1 ∨ daysIn m (u : Int) < dd) := by omega
  simp only [Format, appendInt_four u hu, appendInt_two m hm, appendInt_two dd hd, Parse,
    List.cons_append, List.nil_append, List.append_assoc]
  simp only [digitChar_isDigit _ (show u / 1000 < 10 by omega),
    digitChar_isDigit _ (show u / 100 % 10 < 10 by omega),
    digitChar_isDigit _ (show u / 10 % 10 < 10 by omega),
    digitChar_isDigit _ (show u % 10 < 10 by omega),
    digitChar_isDigit _ (show m / 10 < 10 by omega),
    digitChar_isDigit _ (show m % 10 < 10 by omega),
    digitChar_isDigit _ (show dd / 10 < 10 by omega),
    digitChar_isDigit _ (show dd % 10 < 10 by omega), and_self, if_true, e1, e2, e3, hm0,
    if_false, hd0]

/-- A text that parses as a date has no surrounding white space and is not empty. -/
theorem TrimSpace_of_Parse (s : String) (d : Date) (h : Parse s = some d) :
    TrimSpace s = s ∧ s ≠ "" := by
  rcases s with ⟨l⟩
  simp only [Parse] at h
  split at h
  · rename_i y1 y2 y3 y4 s1 m1 m2 s2 d1 d2
    split at h
    · rename_i hc
      have hy : isSpace y1 = false := isSpace_of_isDigit y1 hc.1
      have hd : isSpace d2 = false := isSpace_of_isDigit d2 hc.2.2.2.2.2.2.2.2.2
      constructor
      · simp [TrimSpace, trimChars, List.dropWhile, hy, hd]
      · intro hcontra
        have := congrArg String.data hcontra
        simp at this
    · exact absurd h (by simp)
  · exact absurd h (by simp)

theorem digitVal_le (c : Char) (h : c.isDigit = true) : digitVal c ≤ 9 := by
  simp only [Char.isDigit, Bool.and_eq_true, decide_eq_true_eq] at h
  have h2 : c.toNat ≤ 57 := by
    have := h.2
    exact this
  unfold digitVal
  omega

/-- A date that `Parse` returns is a valid calendar date with a four-digit year. -/
theorem ValidDate_of_Parse (s : String) (d : Date) (h : Parse s = some d) : ValidDate d := by
  rcases s with ⟨l⟩
  simp only [Parse] at h
  split at h
  · rename_i y1 y2 y3 y4 s1 m1 m2 s2 d1 d2
    split at h
    · rename_i hc
      have b1 := digitVal_le y1 hc.1
      have b2 := digitVal_le y2 hc.2.1
      have b3 := digitVal_le y3 hc.2.2.1
      have b4 := digitVal_le y4 hc.2.2.2.1
      split at h
      · exact absurd h (by simp)
      · rename_i hm
        split at h
        · exact absurd h (by simp)
        · rename_i hd
          simp only [Option.some.injEq] at h
          subst h
          simp only [ValidDate]
          omega
    · exact absurd h (by simp)
  · exact absurd h (by simp)

/-- A text that parses as a date has exactly ten characters. -/
theorem length_of_Parse (s : String) (d : Date) (h : Parse s = some d) : s.length = 10 := by
  rcases s with ⟨l⟩
  simp only [Parse] at h
  split at h
  · rfl
  · exact absurd h (by simp)

theorem Format_ne_empty (d : Date) : Format d ≠ "" := by
  intro h
  have := congrArg (fun s => s.data.length) h
  simp [Format] at this

/-! ## Lemmas on maps and on `ensureDate` -/

theorem lookup_assign_same (k : String) (v : Any) (kvs : List (String × Any)) :
    lookup k (assign k v kvs) = some v := by
  induction kvs with
  | nil => simp [assign, lookup]
  | cons p rest ih =>
    rcases p with ⟨k2, v2⟩
    by_cases hk : k2 = k
    · simp [assign, lookup, hk]
    · simp [assign, lookup, hk, ih]

theorem lookup_assign_other (k k1 : String) (v : Any) (kvs : List (String × Any))
    (hne : k1 ≠ k) : lookup k1 (assign k v kvs) = lookup k1 kvs := by
  induction kvs with
  | nil => simp [assign, lookup, Ne.symm hne]
  | cons p rest ih =>
    rcases p with ⟨k2, v2⟩
    by_cases hk : k2 = k
    · subst hk
      simp [assign, lookup, Ne.symm hne]
    · by_cases hk1 : k2 = k1
      · subst hk1
        simp [assign, lookup, hk]
      · simp [assign, lookup, hk, hk1, ih]

theorem needsDateConfirmation_iff (kvs : List (String × Any)) :
    needsDateConfirmation (some kvs) = true ↔ FlagsDate kvs := by
  unfold needsDateConfirmation FlagsDate index
  constructor
  · intro h
    split at h
    · rename_i raw heq
      split at h
      · rename_i val hval
        subst h
        exact ⟨raw, heq, hval⟩
      · exact absurd h (by simp)
    · exact absurd h (by simp)
  · rintro ⟨raw, h1, h2⟩
    simp only [h1, h2]

theorem needsDateConfirmation_false (kvs : List (String × Any)) (h : ¬ FlagsDate kvs) :
    needsDateConfirmation (some kvs) = false := by
  cases hn : needsDateConfirmation (some kvs) with
  | false => rfl
  | true => exact absurd ((needsDateConfirmation_iff kvs).1 hn) h

/-- The overwriting branch of `ensureDate` on a non-nil map. -/
theorem ensureDate_overwrites (env : Env) (kvs : List (String × Any))
    (transcript tz : String)
    (h : needsDateConfirmation (some kvs) = true ∨
      Parse (TrimSpace (assertString (lookup "date" kvs))) = none) :
    ensureDate env (some kvs) transcript tz =
      Except.ok (some (assign "date"
        (Any.str (Format (env.nowIn (loadLocationOrIndia env.LoadLocation tz
          env.cfg.TZDefault)))) kvs), true) := by
  have hne := Format_ne_empty (env.nowIn (loadLocationOrIndia env.LoadLocation tz
    env.cfg.TZDefault))
  rcases h with h | h
  · simp [ensureDate, h, hne]
  · simp [ensureDate, index, h, hne]

/-- The branch of `ensureDate` that keeps the entry. -/
theorem ensureDate_keeps (env : Env) (kvs : List (String × Any)) (transcript tz : String)
    (s : String) (d : Date) (hflag : ¬ FlagsDate kvs)
    (hdate : lookup "date" kvs = some (Any.str s)) (hparse : Parse s = some d) :
    ensureDate env (some kvs) transcript tz = Except.ok (some kvs, false) := by
  have hn := needsDateConfirmation_false kvs hflag
  obtain ⟨ht, hs⟩ := TrimSpace_of_Parse s d hparse
  simp [ensureDate, index, hn, hdate, assertString, ht, hs, hparse]

theorem assertString_unparsable (kvs : List (String × Any))
    (hdate : ∀ s, lookup "date" kvs = some (Any.str s) → Parse (TrimSpace s) = none) :
    Parse (TrimSpace (assertString (lookup "date" kvs))) = none := by
  cases hl : lookup "date" kvs with
  | none => rfl
  | some v =>
    cases v with
    | str s => exact hdate s hl
    | null => rfl
    | bool b => rfl
    | num n => rfl
    | arr xs => rfl
    | obj o => rfl

/-! ## C1: the resolution order of `loadLocationOrIndia` -/

/-- C1, as stated, fails: with a requested name that is non-empty but does not load and a
configured default that is non-empty and loads, the specified order gives the default's
zone, while `loadLocationOrIndia` gives the zone of "Asia/Kolkata". -/
theorem loadLocationOrIndia_skips_default :
    "Mars/Base" ≠ "" ∧ sampleLoad "Mars/Base" = none ∧ "Europe/London" ≠ "" ∧
    sampleLoad "Europe/London" = some (Location.zone "Europe/London") ∧
    resolveAsSpecified sampleLoad "Mars/Base" "Europe/London" =
      Location.zone "Europe/London" ∧
    loadLocationOrIndia sampleLoad "Mars/Base" "Europe/London" =
      Location.zone "Asia/Kolkata" ∧
    loadLocationOrIndia sampleLoad "Mars/Base" "Europe/London" ≠
      resolveAsSpecified sampleLoad "Mars/Base" "Europe/London" := by
  decide

/-- C1 (amended): for every loader, requested string and configured default,
`loadLocationOrIndia` returns the zone of `requested` when it is not blank and loads; when
`requested` is blank, the zone of the default when that is not blank and loads; and in
every other case (the name chosen this way does not load, or both are blank) the zone
"Asia/Kolkata" when it loads, else the fixed +5:30 zone. A requested name that is not
blank and does not load never leads to the configured default. -/
theorem loadLocationOrIndia_resolution (load : String → Option Location)
    (requested fallback : String) :
    (TrimSpace requested ≠ "" → ∀ loc, load requested = some loc →
      loadLocationOrIndia load requested fallback = loc) ∧
    (TrimSpace requested ≠ "" → load requested = none →
      loadLocationOrIndia load requested fallback = indiaZone load) ∧
    (TrimSpace requested = "" → TrimSpace fallback ≠ "" → ∀ loc, load fallback = some loc →
      loadLocationOrIndia load requested fallback = loc) ∧
    (TrimSpace requested = "" → TrimSpace fallback ≠ "" → load fallback = none →
      loadLocationOrIndia load requested fallback = indiaZone load) ∧
    (TrimSpace requested = "" → TrimSpace fallback = "" →
      loadLocationOrIndia load requested fallback = indiaZone load) := by
  refine ⟨?_, ?_, ?_, ?_, ?_⟩
  · intro h loc hl
    simp [loadLocationOrIndia, h, hl]
  · intro h hl
    simp only [loadLocationOrIndia, h, if_false, hl, indiaZone]
    rfl
  · intro h hf loc hl
    simp [loadLocationOrIndia, h, hf, hl]
  · intro h hf hl
    simp only [loadLocationOrIndia, h, if_true, hf, if_false, hl, indiaZone]
    rfl
  · intro h hf
    simp only [loadLocationOrIndia, h, if_true, hf, indiaZone]
    cases hk : load "Asia/Kolkata" <;> rfl

/-- C1 (amended), at concrete inputs: a loadable request wins; an unloadable one falls
to "Asia/Kolkata" although the default "Europe/London" loads; a blank one takes the
default. -/
theorem loadLocationOrIndia_resolution_witness :
    loadLocationOrIndia sampleLoad "Europe/London" "Asia/Kolkata" =
      Location.zone "Europe/London" ∧
    loadLocationOrIndia sampleLoad "Mars/Base" "Europe/London" = indiaZone sampleLoad ∧
    loadLocationOrIndia sampleLoad "  " "Europe/London" = Location.zone "Europe/London" :=
  ⟨(loadLocationOrIndia_resolution sampleLoad "Europe/London" "Asia/Kolkata").1
      (by decide) _ (by decide),
    (loadLocationOrIndia_resolution sampleLoad "Mars/Base" "Europe/London").2.1
      (by decide) (by decide),
    (loadLocationOrIndia_resolution sampleLoad "  " "Europe/London").2.2.1
      (by decide) (by decide) _ (by decide)⟩

/-! ## C2-C5: `ensureDate` -/

/-- C2: for every entry whose `needs_confirmation` is an object with `date` = true,
whatever its `date` field holds, `ensureDate` returns true and the entry afterwards has
`date` equal to `Format` ("2006-01-02") of the current date in the zone
`loadLocationOrIndia(tz, TZDefault)`, every other key being as before; while the clock
shows a valid date with a four-digit year, that text parses back to the date. -/
theorem ensureDate_flagged_sets_today (env : Env) (kvs : List (String × Any))
    (transcript tz : String) (h : FlagsDate kvs) :
    ∃ after,
      ensureDate env (some kvs) transcript tz = Except.ok (some after, true) ∧
      lookup "date" after = some (Any.str (Format (env.nowIn
        (loadLocationOrIndia env.LoadLocation tz env.cfg.TZDefault)))) ∧
      (∀ k, k ≠ "date" → lookup k after = lookup k kvs) ∧
      (ValidDate (env.nowIn (loadLocationOrIndia env.LoadLocation tz env.cfg.TZDefault)) →
        Parse (Format (env.nowIn (loadLocationOrIndia env.LoadLocation tz
          env.cfg.TZDefault))) =
          some (env.nowIn (loadLocationOrIndia env.LoadLocation tz env.cfg.TZDefault))) :=
  ⟨_, ensureDate_overwrites env kvs transcript tz
      (Or.inl ((needsDateConfirmation_iff kvs).2 h)),
    lookup_assign_same _ _ _, fun k hk => lookup_assign_other _ k _ _ hk,
    fun hv => Parse_Format _ hv⟩

/-- C2 at a concrete entry: a flagged entry dated 2024-01-15, resolved for a blank `tz`
on 4 November 2026. -/
theorem ensureDate_flagged_sets_today_witness :
    ∃ after,
      ensureDate sampleEnv (some [("title", Any.str "Groceries"),
        ("date", Any.str "2024-01-15"),
        ("needs_confirmation", Any.obj [("date", Any.bool true)])]) "paid 500" "" =
        Except.ok (some after, true) ∧
      lookup "date" after = some (Any.str (Format (sampleEnv.nowIn
        (loadLocationOrIndia sampleEnv.LoadLocation "" sampleEnv.cfg.TZDefault)))) ∧
      (∀ k, k ≠ "date" → lookup k after = lookup k [("title", Any.str "Groceries"),
        ("date", Any.str "2024-01-15"),
        ("needs_confirmation", Any.obj [("date", Any.bool true)])]) ∧
      (ValidDate (sampleEnv.nowIn (loadLocationOrIndia sampleEnv.LoadLocation ""
          sampleEnv.cfg.TZDefault)) →
        Parse (Format (sampleEnv.nowIn (loadLocationOrIndia sampleEnv.LoadLocation ""
          sampleEnv.cfg.TZDefault))) =
          some (sampleEnv.nowIn (loadLocationOrIndia sampleEnv.LoadLocation ""
            sampleEnv.cfg.TZDefault))) :=
  ensureDate_flagged_sets_today sampleEnv _ "paid 500" ""
    ⟨[("date", Any.bool true)], rfl, rfl⟩

/-- C3, as stated, fails: the text " 2024-01-15" (a leading blank) does not match the
format, the entry asks for no confirmation, and `ensureDate` keeps it and returns
false. -/
theorem ensureDate_keeps_padded_date :
    ¬ FlagsDate [("date", Any.str " 2024-01-15")] ∧
    Parse " 2024-01-15" = none ∧
    ensureDate sampleEnv (some [("date", Any.str " 2024-01-15")]) "paid 500" "" =
      Except.ok (some [("date", Any.str " 2024-01-15")], false) := by
  refine ⟨?_, rfl, rfl⟩
  rintro ⟨raw, h, _⟩
  simp [lookup] at h

/-- C3 (amended): for every non-nil entry that asks for no date confirmation and whose
`date` is absent, is not a string, or is a string that after removal of surrounding white
space does not parse as a calendar date YYYY-MM-DD, `ensureDate` returns true and
the entry afterwards has `date` equal to today's date in the resolved zone. -/
theorem ensureDate_unparsable_sets_today (env : Env) (kvs : List (String × Any))
    (transcript tz : String) (hflag : ¬ FlagsDate kvs)
    (hdate : ∀ s, lookup "date" kvs = some (Any.str s) → Parse (TrimSpace s) = none) :
    ∃ after,
      ensureDate env (some kvs) transcript tz = Except.ok (some after, true) ∧
      lookup "date" after = some (Any.str (Format (env.nowIn
        (loadLocationOrIndia env.LoadLocation tz env.cfg.TZDefault)))) ∧
      (∀ k, k ≠ "date" → lookup k after = lookup k kvs) :=
  have _ := hflag
  ⟨_, ensureDate_overwrites env kvs transcript tz
      (Or.inr (assertString_unparsable kvs hdate)),
    lookup_assign_same _ _ _, fun k hk => lookup_assign_other _ k _ _ hk⟩

/-- C3 (amended) at a concrete entry: the date "15/01/2024" is replaced by today's. -/
theorem ensureDate_unparsable_sets_today_witness :
    ∃ after,
      ensureDate sampleEnv (some [("date", Any.str "15/01/2024")]) "paid 500"
        "Asia/Kolkata" = Except.ok (some after, true) ∧
      lookup "date" after = some (Any.str (Format (sampleEnv.nowIn
        (loadLocationOrIndia sampleEnv.LoadLocation "Asia/Kolkata"
          sampleEnv.cfg.TZDefault)))) ∧
      (∀ k, k ≠ "date" → lookup k after = lookup k [("date", Any.str "15/01/2024")]) :=
  ensureDate_unparsable_sets_today sampleEnv [("date", Any.str "15/01/2024")] "paid 500"
    "Asia/Kolkata"
    (by
      rintro ⟨raw, h, _⟩
      simp [lookup] at h)
    (by
      intro s hs
      have hs2 : s = "15/01/2024" := by
        simp [lookup] at hs
        exact hs.symm
      subst hs2
      rfl)

/-- C4: for every entry that asks for no date confirmation and whose `date` is a
well-formed YYYY-MM-DD calendar date, `ensureDate` returns false and the entry is
unchanged; a second run on the result again changes nothing. -/
theorem ensureDate_wellformed_unchanged (env : Env) (kvs : List (String × Any))
    (transcript tz : String) (s : String) (d : Date) (hflag : ¬ FlagsDate kvs)
    (hdate : lookup "date" kvs = some (Any.str s)) (hparse : Parse s = some d) :
    ensureDate env (some kvs) transcript tz = Except.ok (some kvs, false) ∧
    (ensureDate env (some kvs) transcript tz >>= fun r =>
      ensureDate env r.1 transcript tz) = Except.ok (some kvs, false) := by
  have h := ensureDate_keeps env kvs transcript tz s d hflag hdate hparse
  refine ⟨h, ?_⟩
  rw [h]
  exact h

/-- C4 at a concrete entry: an entry dated 2024-02-29 with the flag set to false. -/
theorem ensureDate_wellformed_unchanged_witness :
    ensureDate sampleEnv (some [("date", Any.str "2024-02-29"),
      ("needs_confirmation", Any.obj [("date", Any.bool false)])]) "paid 500" "" =
      Except.ok (some [("date", Any.str "2024-02-29"),
        ("needs_confirmation", Any.obj [("date", Any.bool false)])], false) ∧
    (ensureDate sampleEnv (some [("date", Any.str "2024-02-29"),
      ("needs_confirmation", Any.obj [("date", Any.bool false)])]) "paid 500" "" >>=
      fun r => ensureDate sampleEnv r.1 "paid 500" "") =
      Except.ok (some [("date", Any.str "2024-02-29"),
        ("needs_confirmation", Any.obj [("date", Any.bool false)])], false) :=
  ensureDate_wellformed_unchanged sampleEnv _ "paid 500" "" "2024-02-29" ⟨2024, 2, 29⟩
    (by
      rintro ⟨raw, h, h2⟩
      simp [lookup] at h
      subst h
      simp [lookup] at h2)
    rfl rfl

/-- C5, as stated, fails: the entry whose date is " 2024-01-15 " (blanks around it) is
returned unchanged, and that text is not in the format YYYY-MM-DD. -/
theorem ensureDate_leaves_padded_date :
    ensureDate sampleEnv (some [("date", Any.str " 2024-01-15 ")]) "paid 500" "" =
      Except.ok (some [("date", Any.str " 2024-01-15 ")], false) ∧
    lookup "date" [("date", Any.str " 2024-01-15 ")] = some (Any.str " 2024-01-15 ") ∧
    (" 2024-01-15 ").length = 12 ∧
    Parse " 2024-01-15 " = none :=
  ⟨rfl, rfl, rfl, rfl⟩

/-- C5 (amended): for every non-nil entry, transcript and tz, while the clock shows a valid
date with a four-digit year, `ensureDate` returns (it does not panic) and the entry
afterwards has a `date` that is a string which, after removal of surrounding white space,
is a well-formed YYYY-MM-DD text of a valid calendar date. -/
theorem ensureDate_date_wellformed (env : Env) (kvs : List (String × Any))
    (transcript tz : String)
    (hclock : ValidDate (env.nowIn (loadLocationOrIndia env.LoadLocation tz
      env.cfg.TZDefault))) :
    ∃ after mutated s d,
      ensureDate env (some kvs) transcript tz = Except.ok (some after, mutated) ∧
      lookup "date" after = some (Any.str s) ∧
      Parse (TrimSpace s) = some d ∧ ValidDate d ∧ (TrimSpace s).length = 10 := by
  have hfmt := Parse_Format _ hclock
  have htrim := (TrimSpace_of_Parse _ _ hfmt).1
  by_cases hover : needsDateConfirmation (some kvs) = true ∨
      Parse (TrimSpace (assertString (lookup "date" kvs))) = none
  · refine ⟨_, true, _, _, ensureDate_overwrites env kvs transcript tz hover,
      lookup_assign_same _ _ _, ?_, hclock, ?_⟩
    · rw [htrim]
      exact hfmt
    · rw [htrim]
      exact length_of_Parse _ _ hfmt
  · have hn : ¬ FlagsDate kvs := fun hf => hover (Or.inl ((needsDateConfirmation_iff kvs).2 hf))
    have hp : Parse (TrimSpace (assertString (lookup "date" kvs))) ≠ none :=
      fun hp => hover (Or.inr hp)
    obtain ⟨d, hd⟩ := Option.ne_none_iff_exists'.1 hp
    cases hl : lookup "date" kvs with
    | none =>
      rw [hl] at hd
      exact absurd hd (by simp [assertString, TrimSpace_empty, Parse_empty])
    | some v =>
      cases v with
      | str s =>
        rw [hl] at hd
        simp only [assertString] at hd
        have hkeep : ensureDate env (some kvs) transcript tz = Except.ok (some kvs, false) := by
          have hflag := needsDateConfirmation_false kvs hn
          obtain ⟨ht, hs⟩ := TrimSpace_of_Parse _ d hd
          simp [ensureDate, index, hflag, hl, assertString, hd, hs]
        exact ⟨kvs, false, s, d, hkeep, hl, hd, ValidDate_of_Parse _ d hd,
          length_of_Parse _ d hd⟩
      | null =>
        rw [hl] at hd
        exact absurd hd (by simp [assertString, TrimSpace_empty, Parse_empty])
      | bool b =>
        rw [hl] at hd
        exact absurd hd (by simp [assertString, TrimSpace_empty, Parse_empty])
      | num n =>
        rw [hl] at hd
        exact absurd hd (by simp [assertString, TrimSpace_empty, Parse_empty])
      | arr xs =>
        rw [hl] at hd
        exact absurd hd (by simp [assertString, TrimSpace_empty, Parse_empty])
      | obj o =>
        rw [hl] at hd
        exact absurd hd (by simp [assertString, TrimSpace_empty, Parse_empty])

/-- C5 (amended) at a concrete entry: an entry without a date, on 4 November 2026. -/
theorem ensureDate_date_wellformed_witness :
    ∃ after mutated s d,
      ensureDate sampleEnv (some [("title", Any.str "Tea")]) "paid 500 for tea" "" =
        Except.ok (some after, mutated) ∧
      lookup "date" after = some (Any.str s) ∧
      Parse (TrimSpace s) = some d ∧ ValidDate d ∧ (TrimSpace s).length = 10 :=
  ensureDate_date_wellformed sampleEnv [("title", Any.str "Tea")] "paid 500 for tea" ""
    (by decide)

/-! ## Lemmas on the handler -/

theorem handleParseValidate_error (env : Env) (transcript : String) (calls : List Call)
    (parsed err : String) (h : env.validate parsed = Except.error err) :
    handleParseValidate env transcript calls parsed =
      ⟨calls ++ [Call.Validate parsed],
        Response.JSON 500 [("error", Any.str "validation_failed")]⟩ := by
  simp only [handleParseValidate, h]

theorem handleParseValidate_invalid (env : Env) (transcript : String) (calls : List Call)
    (parsed : String) (res : ValidationResult) (h : env.validate parsed = Except.ok res)
    (hv : res.Valid = false) :
    handleParseValidate env transcript calls parsed =
      ⟨calls ++ [Call.Validate parsed],
        Response.JSON 422 [("error", Any.str "schema_invalid"),
          ("details", Any.arr (res.Errors.map Any.str)),
          ("transcript", Any.str transcript)]⟩ := by
  simp [handleParseValidate, h, hv]

theorem handleParseValidate_valid (env : Env) (transcript : String) (calls : List Call)
    (parsed : String) (res : ValidationResult) (h : env.validate parsed = Except.ok res)
    (hv : res.Valid = true) :
    handleParseValidate env transcript calls parsed =
      ⟨calls ++ [Call.Validate parsed], Response.Data 200 "application/json" parsed⟩ := by
  simp [handleParseValidate, h, hv]

theorem handleParseValidate_shape (env : Env) (transcript : String) (calls : List Call)
    (parsed : String) :
    (handleParseValidate env transcript calls parsed).calls = calls ++ [Call.Validate parsed] ∧
    ((handleParseValidate env transcript calls parsed).response.code = 500 ∨
      (handleParseValidate env transcript calls parsed).response.code = 422 ∨
      (handleParseValidate env transcript calls parsed).response.code = 200) := by
  cases hv : env.validate parsed with
  | error e =>
    rw [handleParseValidate_error env transcript calls parsed e hv]
    simp [Response.code]
  | ok res =>
    cases hb : res.Valid with
    | false =>
      rw [handleParseValidate_invalid env transcript calls parsed res hv hb]
      simp [Response.code]
    | true =>
      rw [handleParseValidate_valid env transcript calls parsed res hv hb]
      simp [Response.code]

theorem handleParseDecode_error (env : Env) (transcript tz : String) (calls : List Call)
    (parsed err : String) (h : Unmarshal env parsed = Except.error err) :
    handleParseDecode env transcript tz calls parsed =
      ⟨calls ++ [Call.Unmarshal parsed],
        Response.JSON 500 [("error", Any.str "invalid_parse_response")]⟩ := by
  simp only [handleParseDecode, h]

theorem handleParseDecode_panic (env : Env) (transcript tz : String) (calls : List Call)
    (parsed msg : String) (parsedObj : GoMap) (h : Unmarshal env parsed = Except.ok parsedObj)
    (he : ensureDate env parsedObj transcript tz = Except.error msg) :
    handleParseDecode env transcript tz calls parsed =
      ⟨calls ++ [Call.Unmarshal parsed] ++ [Call.ensureDate parsedObj transcript tz],
        Response.panicked msg⟩ := by
  simp only [handleParseDecode, h, he]

theorem handleParseDecode_marshal_error (env : Env) (transcript tz : String)
    (calls : List Call) (parsed err : String) (parsedObj entry : GoMap)
    (h : Unmarshal env parsed = Except.ok parsedObj)
    (he : ensureDate env parsedObj transcript tz = Except.ok (entry, true))
    (hm : env.jsonMarshal entry = Except.error err) :
    handleParseDecode env transcript tz calls parsed =
      ⟨calls ++ [Call.Unmarshal parsed] ++ [Call.ensureDate parsedObj transcript tz] ++
        [Call.Marshal entry],
        Response.JSON 500 [("error", Any.str "serialization_failed")]⟩ := by
  simp only [handleParseDecode, h, he, hm]

theorem handleParseDecode_mutated (env : Env) (transcript tz : String)
    (calls : List Call) (parsed parsed2 : String) (parsedObj entry : GoMap)
    (h : Unmarshal env parsed = Except.ok parsedObj)
    (he : ensureDate env parsedObj transcript tz = Except.ok (entry, true))
    (hm : env.jsonMarshal entry = Except.ok parsed2) :
    handleParseDecode env transcript tz calls parsed =
      handleParseValidate env transcript
        (calls ++ [Call.Unmarshal parsed] ++ [Call.ensureDate parsedObj transcript tz] ++
          [Call.Marshal entry]) parsed2 := by
  simp only [handleParseDecode, h, he, hm]

theorem handleParseDecode_unmutated (env : Env) (transcript tz : String)
    (calls : List Call) (parsed : String) (parsedObj entry : GoMap)
    (h : Unmarshal env parsed = Except.ok parsedObj)
    (he : ensureDate env parsedObj transcript tz = Except.ok (entry, false)) :
    handleParseDecode env transcript tz calls parsed =
      handleParseValidate env transcript
        (calls ++ [Call.Unmarshal parsed] ++ [Call.ensureDate parsedObj transcript tz])
        parsed := by
  simp only [handleParseDecode, h, he]

theorem handleParseDecode_shape (env : Env) (transcript tz : String) (calls : List Call)
    (parsed : String) :
    (∃ rest, (handleParseDecode env transcript tz calls parsed).calls = calls ++ rest ∧
      ∀ c ∈ rest, c.isLater = true) ∧
    ((handleParseDecode env transcript tz calls parsed).response.code = 500 ∨
      (handleParseDecode env transcript tz calls parsed).response.code = 422 ∨
      (handleParseDecode env transcript tz calls parsed).response.code = 200) := by
  cases hu : Unmarshal env parsed with
  | error e =>
    rw [handleParseDecode_error env transcript tz calls parsed e hu]
    exact ⟨⟨[Call.Unmarshal parsed], rfl, by simp [Call.isLater]⟩, Or.inl rfl⟩
  | ok parsedObj =>
    cases he : ensureDate env parsedObj transcript tz with
    | error msg =>
      rw [handleParseDecode_panic env transcript tz calls parsed msg parsedObj hu he]
      exact ⟨⟨[Call.Unmarshal parsed, Call.ensureDate parsedObj transcript tz], by simp,
        by simp [Call.isLater]⟩, Or.inl rfl⟩
    | ok r =>
      rcases r with ⟨entry, mutated⟩
      cases mutated with
      | true =>
        cases hm : env.jsonMarshal entry with
        | error e =>
          rw [handleParseDecode_marshal_error env transcript tz calls parsed e parsedObj entry
            hu he hm]
          exact ⟨⟨[Call.Unmarshal parsed, Call.ensureDate parsedObj transcript tz,
            Call.Marshal entry], by simp, by simp [Call.isLater]⟩, Or.inl rfl⟩
        | ok parsed2 =>
          rw [handleParseDecode_mutated env transcript tz calls parsed parsed2 parsedObj entry
            hu he hm]
          have hv := handleParseValidate_shape env transcript
            (calls ++ [Call.Unmarshal parsed] ++ [Call.ensureDate parsedObj transcript tz] ++
              [Call.Marshal entry]) parsed2
          refine ⟨⟨[Call.Unmarshal parsed, Call.ensureDate parsedObj transcript tz,
            Call.Marshal entry, Call.Validate parsed2], ?_, by simp [Call.isLater]⟩, hv.2⟩
          rw [hv.1]
          simp
      | false =>
        rw [handleParseDecode_unmutated env transcript tz calls parsed parsedObj entry hu he]
        have hv := handleParseValidate_shape env transcript
          (calls ++ [Call.Unmarshal parsed] ++ [Call.ensureDate parsedObj transcript tz]) parsed
        refine ⟨⟨[Call.Unmarshal parsed, Call.ensureDate parsedObj transcript tz,
          Call.Validate parsed], ?_, by simp [Call.isLater]⟩, hv.2⟩
        rw [hv.1]
        simp

theorem handleParseText_blank (env : Env) (req : ParseRequest) (tz : String)
    (calls : List Call) (transcript : String)
    (h : TrimSpace (if transcript = "" then req.hint_text else transcript) = "") :
    handleParseText env req tz calls transcript =
      ⟨calls, Response.JSON 400 [("error", Any.str "no audio or hint_text provided")]⟩ := by
  simp only [handleParseText, h, if_true]

theorem handleParseText_failed (env : Env) (req : ParseRequest) (tz : String)
    (calls : List Call) (transcript err : String)
    (h : TrimSpace (if transcript = "" then req.hint_text else transcript) ≠ "")
    (hp : ParseText env (if transcript = "" then req.hint_text else transcript) tz =
      Except.error err) :
    handleParseText env req tz calls transcript =
      ⟨calls ++ [Call.ParseText (if transcript = "" then req.hint_text else transcript) tz],
        Response.JSON 422 [("error", Any.str "could_not_parse"),
          ("transcript", Any.str (if transcript = "" then req.hint_text else transcript))]⟩ := by
  simp only [handleParseText, h, if_false, hp]

theorem handleParseText_parsed (env : Env) (req : ParseRequest) (tz : String)
    (calls : List Call) (transcript parsed : String)
    (h : TrimSpace (if transcript = "" then req.hint_text else transcript) ≠ "")
    (hp : ParseText env (if transcript = "" then req.hint_text else transcript) tz =
      Except.ok parsed) :
    handleParseText env req tz calls transcript =
      handleParseDecode env (if transcript = "" then req.hint_text else transcript) tz
        (calls ++ [Call.ParseText (if transcript = "" then req.hint_text else transcript) tz])
        parsed := by
  simp only [handleParseText, h, if_false, hp]

/-- When the transcript is not blank, the extraction call follows the calls made so far,
only later stages follow it, and the status is 422, 500 or 200. -/
theorem handleParseText_shape (env : Env) (req : ParseRequest) (tz : String)
    (calls : List Call) (transcript : String)
    (h : TrimSpace (if transcript = "" then req.hint_text else transcript) ≠ "") :
    (∃ rest, (handleParseText env req tz calls transcript).calls =
        calls ++ Call.ParseText (if transcript = "" then req.hint_text else transcript) tz
          :: rest ∧ ∀ c ∈ rest, c.isLater = true) ∧
    ((handleParseText env req tz calls transcript).response.code = 500 ∨
      (handleParseText env req tz calls transcript).response.code = 422 ∨
      (handleParseText env req tz calls transcript).response.code = 200) := by
  cases hp : ParseText env (if transcript = "" then req.hint_text else transcript) tz with
  | error e =>
    rw [handleParseText_failed env req tz calls transcript e h hp]
    exact ⟨⟨[], rfl, by simp⟩, Or.inr (Or.inl rfl)⟩
  | ok parsed =>
    rw [handleParseText_parsed env req tz calls transcript parsed h hp]
    obtain ⟨⟨rest, hr, hl⟩, hc⟩ := handleParseDecode_shape env
      (if transcript = "" then req.hint_text else transcript) tz
      (calls ++ [Call.ParseText (if transcript = "" then req.hint_text else transcript) tz])
      parsed
    refine ⟨⟨rest, ?_, hl⟩, hc⟩
    rw [hr]
    simp

theorem handleParse_no_file (env : Env) (req : ParseRequest) (h : req.file = none) :
    handleParse env req = handleParseText env req (requestTz env req) [] "" := by
  simp only [handleParse, h, requestTz]

theorem handleParse_too_large (env : Env) (req : ParseRequest) (header : FileHeader)
    (h : req.file = some header) (hsize : header.Size > uploadLimit env.cfg) :
    handleParse env req = ⟨[], Response.JSON 413 [("error", Any.str "file too large")]⟩ := by
  simp only [handleParse, h, hsize, if_true]

theorem handleParse_unreadable (env : Env) (req : ParseRequest) (header : FileHeader)
    (h : req.file = some header) (hsize : ¬ header.Size > uploadLimit env.cfg)
    (hread : header.content = none) :
    handleParse env req =
      ⟨[], Response.JSON 400 [("error", Any.str "failed to read file")]⟩ := by
  simp only [handleParse, h, hsize, if_false, hread]

theorem handleParse_transcribed (env : Env) (req : ParseRequest) (header : FileHeader)
    (buf : List Nat) (t : String)
    (h : req.file = some header) (hsize : ¬ header.Size > uploadLimit env.cfg)
    (hread : header.content = some buf)
    (ht : Transcribe env header.Filename buf = Except.ok t) :
    handleParse env req =
      handleParseText env req (requestTz env req) [Call.Transcribe header.Filename buf] t := by
  simp only [handleParse, h, hsize, if_false, hread, ht, requestTz]

theorem handleParse_stt_failed (env : Env) (req : ParseRequest) (header : FileHeader)
    (buf : List Nat) (err : String)
    (h : req.file = some header) (hsize : ¬ header.Size > uploadLimit env.cfg)
    (hread : header.content = some buf)
    (ht : Transcribe env header.Filename buf = Except.error err) :
    handleParse env req =
      handleParseText env req (requestTz env req) [Call.Transcribe header.Filename buf] "" := by
  simp only [handleParse, h, hsize, if_false, hread, ht, requestTz]

/-- Every run either answers before any call is made, or enters the transcript stage
after at most the transcription call. -/
theorem handleParse_reaches (env : Env) (req : ParseRequest) :
    (handleParse env req).calls = [] ∨
    ∃ calls t, (∀ c ∈ calls, c.isTranscribe = true) ∧
      handleParse env req = handleParseText env req (requestTz env req) calls t := by
  cases hf : req.file with
  | none => exact Or.inr ⟨[], "", by simp, handleParse_no_file env req hf⟩
  | some header =>
    by_cases hsize : header.Size > uploadLimit env.cfg
    · left
      rw [handleParse_too_large env req header hf hsize]
    · cases hread : header.content with
      | none =>
        left
        rw [handleParse_unreadable env req header hf hsize hread]
      | some buf =>
        right
        cases ht : Transcribe env header.Filename buf with
        | ok t =>
          exact ⟨[Call.Transcribe header.Filename buf], t, by simp [Call.isTranscribe],
            handleParse_transcribed env req header buf t hf hsize hread ht⟩
        | error e =>
          exact ⟨[Call.Transcribe header.Filename buf], "", by simp [Call.isTranscribe],
            handleParse_stt_failed env req header buf e hf hsize hread ht⟩

/-- An extraction call in the trace of the transcript stage is the one call that stage
makes, on its non-blank transcript. -/
theorem handleParseText_call (env : Env) (req : ParseRequest) (tz : String)
    (calls : List Call) (t transcript z : String)
    (hcalls : ∀ c ∈ calls, c.isTranscribe = true)
    (hmem : Call.ParseText transcript z ∈ (handleParseText env req tz calls t).calls) :
    transcript = (if t = "" then req.hint_text else t) ∧ z = tz ∧
      TrimSpace (if t = "" then req.hint_text else t) ≠ "" := by
  by_cases hb : TrimSpace (if t = "" then req.hint_text else t) = ""
  · rw [handleParseText_blank env req tz calls t hb] at hmem
    have := hcalls _ hmem
    simp [Call.isTranscribe] at this
  · obtain ⟨⟨rest, hr, hl⟩, -⟩ := handleParseText_shape env req tz calls t hb
    rw [hr] at hmem
    rcases List.mem_append.1 hmem with h1 | h2
    · have := hcalls _ h1
      simp [Call.isTranscribe] at this
    · rcases List.mem_cons.1 h2 with h3 | h4
      · simp only [Call.ParseText.injEq] at h3
        exact ⟨h3.1, h3.2, hb⟩
      · have := hl _ h4
        simp [Call.isLater] at this

theorem ParseText_error_iff (env : Env) (transcript tz : String) :
    (∃ err, ParseText env transcript tz = Except.error err) ↔
      ParseTextFails env transcript tz := by
  unfold ParseText ParseTextFails
  by_cases hk : env.cfg.OpenAIKey = ""
  · simp [hk]
  · cases hd : env.chatDo (ParseTextRequest env transcript tz) with
    | error e => simp [hk]
    | ok resp =>
      by_cases hs : resp.StatusCode ≥ 300
      · simp [hk, hs]
      · cases hc : env.decodeChoices resp.Body with
        | error e => simp [hk, hs, hc]
        | ok choices =>
          cases choices with
          | nil => simp [hk, hs, hc]
          | cons content rest => simp [hk, hs, hc]

theorem wrap64_eq (x : Int) (h1 : -(2 : Int) ^ 63 ≤ x) (h2 : x < (2 : Int) ^ 63) :
    wrap64 x = x := by
  unfold wrap64
  norm_num at h1 h2 ⊢
  omega

/-- While the product fits `int64`, the Go expression is the product. -/
theorem uploadLimit_eq (cfg : Config) (h1 : -(2 : Int) ^ 63 ≤ cfg.MaxUploadMB * 1024 * 1024)
    (h2 : cfg.MaxUploadMB * 1024 * 1024 < (2 : Int) ^ 63) :
    uploadLimit cfg = cfg.MaxUploadMB * 1024 * 1024 := by
  unfold uploadLimit
  have e : wrap64 (cfg.MaxUploadMB * 1024) = cfg.MaxUploadMB * 1024 := by
    apply wrap64_eq
    · norm_num at h1 h2 ⊢
      omega
    · norm_num at h1 h2 ⊢
      omega
  rw [e]
  exact wrap64_eq _ h1 h2

/-! ## C6-C10: `handleParse` -/

/-- C6: for every parse request that carries an audio file whose size exceeds
`MaxUploadMB*1024*1024` (the `int64` value the handler computes, which is the product
itself whenever the product fits `int64`), `handleParse` answers 413 "file too large" and
makes no call at all, so neither Transcribe nor ParseText, whatever `hint_text` and `tz`
are. -/
theorem handleParse_oversize_rejected (env : Env) (req : ParseRequest) (header : FileHeader)
    (hfile : req.file = some header)
    (hsize : uploadLimit env.cfg < header.Size ∨
      (-(2 : Int) ^ 63 ≤ env.cfg.MaxUploadMB * 1024 * 1024 ∧
        env.cfg.MaxUploadMB * 1024 * 1024 < (2 : Int) ^ 63 ∧
        env.cfg.MaxUploadMB * 1024 * 1024 < header.Size)) :
    (handleParse env req).response =
      Response.JSON 413 [("error", Any.str "file too large")] ∧
    (handleParse env req).response.code = 413 ∧
    (handleParse env req).calls = [] := by
  have h : header.Size > uploadLimit env.cfg := by
    rcases hsize with h | ⟨h1, h2, h3⟩
    · exact h
    · rw [uploadLimit_eq env.cfg h1 h2]
      exact h3
  rw [handleParse_too_large env req header hfile h]
  exact ⟨rfl, rfl, rfl⟩

/-- C6 at a concrete request: a file of 15 MB and one byte against a 15 MB ceiling. -/
theorem handleParse_oversize_rejected_witness :
    (handleParse sampleEnv sampleOversize).response =
      Response.JSON 413 [("error", Any.str "file too large")] ∧
    (handleParse sampleEnv sampleOversize).response.code = 413 ∧
    (handleParse sampleEnv sampleOversize).calls = [] :=
  handleParse_oversize_rejected sampleEnv sampleOversize ⟨"long.m4a", 15728641, some []⟩ rfl
    (Or.inl (by decide))

/-- C7, as stated, fails: the audio is within the limit, the transcription call fails and
the hint text " " is not empty, yet the handler answers 400 and makes no extraction
call. -/
theorem handleParse_blank_hint_rejected :
    sampleBlankHint.hint_text ≠ "" ∧
    ¬ ((1024 : Int) > uploadLimit sampleEnv.cfg) ∧
    Transcribe sampleEnv "note.m4a" [82, 73, 70, 70] =
      Except.error "whisper error: unavailable" ∧
    handleParse sampleEnv sampleBlankHint =
      ⟨[Call.Transcribe "note.m4a" [82, 73, 70, 70]],
        Response.JSON 400 [("error", Any.str "no audio or hint_text provided")]⟩ :=
  ⟨by decide, by decide, rfl, rfl⟩

/-- C7 (amended): for every parse request whose audio is within the size limit and was
read, whose transcription call fails, and whose hint text is not blank (it has a character
that is not white space), `handleParse` makes the extraction call right after the
transcription call, with the hint text, untrimmed, as the transcript; only later stages
follow, and the status is neither 400 nor 413. -/
theorem handleParse_hint_fallback (env : Env) (req : ParseRequest) (header : FileHeader)
    (buf : List Nat) (err : String)
    (hfile : req.file = some header) (hsize : ¬ header.Size > uploadLimit env.cfg)
    (hread : header.content = some buf)
    (hstt : Transcribe env header.Filename buf = Except.error err)
    (hhint : TrimSpace req.hint_text ≠ "") :
    (∃ rest, (handleParse env req).calls =
        Call.Transcribe header.Filename buf ::
          Call.ParseText req.hint_text (requestTz env req) :: rest ∧
      ∀ c ∈ rest, c.isLater = true) ∧
    (handleParse env req).response.code ≠ 400 ∧
    (handleParse env req).response.code ≠ 413 := by
  rw [handleParse_stt_failed env req header buf err hfile hsize hread hstt]
  have hb : TrimSpace (if ("" : String) = "" then req.hint_text else "") ≠ "" := by
    simpa using hhint
  obtain ⟨⟨rest, hr, hl⟩, hc⟩ := handleParseText_shape env req (requestTz env req)
    [Call.Transcribe header.Filename buf] "" hb
  simp only [if_true] at hr
  refine ⟨⟨rest, ?_, hl⟩, ?_, ?_⟩
  · rw [hr]
    rfl
  · rcases hc with h | h | h <;> omega
  · rcases hc with h | h | h <;> omega

/-- C7 (amended) at a concrete request: audio of 1024 bytes, transcription answered 503,
hint text "paid 500 for tea". -/
theorem handleParse_hint_fallback_witness :
    (∃ rest, (handleParse sampleEnv sampleWithHint).calls =
        Call.Transcribe "note.m4a" [82, 73, 70, 70] ::
          Call.ParseText "paid 500 for tea" (requestTz sampleEnv sampleWithHint) :: rest ∧
      ∀ c ∈ rest, c.isLater = true) ∧
    (handleParse sampleEnv sampleWithHint).response.code ≠ 400 ∧
    (handleParse sampleEnv sampleWithHint).response.code ≠ 413 :=
  handleParse_hint_fallback sampleEnv sampleWithHint
    ⟨"note.m4a", 1024, some [82, 73, 70, 70]⟩ [82, 73, 70, 70] "whisper error: unavailable"
    rfl (by decide) rfl rfl (by decide)

/-- C8: for every parse request in which the audio is absent, or is within the limit and
read and its transcription fails or yields the empty text, and whose hint text is empty or
white space only, `handleParse` answers 400 "no audio or hint_text provided", and the
only call of the run, if any, is the transcription call: no extraction, decoding, date
resolution, re-serialization or schema validation. -/
theorem handleParse_no_text_rejected (env : Env) (req : ParseRequest)
    (hhint : TrimSpace req.hint_text = "")
    (haudio : req.file = none ∨
      ∃ header buf, req.file = some header ∧ ¬ header.Size > uploadLimit env.cfg ∧
        header.content = some buf ∧
        ((∃ err, Transcribe env header.Filename buf = Except.error err) ∨
          Transcribe env header.Filename buf = Except.ok "")) :
    (handleParse env req).response =
      Response.JSON 400 [("error", Any.str "no audio or hint_text provided")] ∧
    (∀ c ∈ (handleParse env req).calls, c.isTranscribe = true) ∧
    (∀ c ∈ (handleParse env req).calls, c.isLater = false) := by
  have hb : TrimSpace (if ("" : String) = "" then req.hint_text else "") = "" := by
    simpa using hhint
  rcases haudio with hnone | ⟨header, buf, hfile, hsize, hread, hstt⟩
  · rw [handleParse_no_file env req hnone, handleParseText_blank env req _ [] "" hb]
    simp
  · have hrun : handleParse env req =
        handleParseText env req (requestTz env req) [Call.Transcribe header.Filename buf] "" := by
      rcases hstt with ⟨err, he⟩ | hok
      · exact handleParse_stt_failed env req header buf err hfile hsize hread he
      · exact handleParse_transcribed env req header buf "" hfile hsize hread hok
    rw [hrun, handleParseText_blank env req _ _ "" hb]
    simp [Call.isTranscribe, Call.isLater]

/-- C8 at a concrete request: audio whose transcription is answered 503 and the hint
text " ". -/
theorem handleParse_no_text_rejected_witness :
    (handleParse sampleEnv sampleBlankHint).response =
      Response.JSON 400 [("error", Any.str "no audio or hint_text provided")] ∧
    (∀ c ∈ (handleParse sampleEnv sampleBlankHint).calls, c.isTranscribe = true) ∧
    (∀ c ∈ (handleParse sampleEnv sampleBlankHint).calls, c.isLater = false) :=
  handleParse_no_text_rejected sampleEnv sampleBlankHint (by decide)
    (Or.inr ⟨⟨"note.m4a", 1024, some [82, 73, 70, 70]⟩, [82, 73, 70, 70], rfl, by decide, rfl,
      Or.inl ⟨"whisper error: unavailable", rfl⟩⟩)

/-- C9: for every run of `handleParse` that calls ParseText on a transcript, when that
call fails for one of its causes (missing credential, transport error, status of 300 or
more, undecodable body, zero completions), ParseText returns an error, the response is
422 with error "could_not_parse" and a `transcript` field equal to the transcript passed
to ParseText, and the extraction call is the last call of the run, preceded by at most
the transcription call. -/
theorem handleParse_extraction_failure (env : Env) (req : ParseRequest)
    (transcript tz : String)
    (hcall : Call.ParseText transcript tz ∈ (handleParse env req).calls)
    (hfail : ParseTextFails env transcript tz) :
    (∃ err, ParseText env transcript tz = Except.error err) ∧
    (handleParse env req).response =
      Response.JSON 422 [("error", Any.str "could_not_parse"),
        ("transcript", Any.str transcript)] ∧
    (∃ before, (handleParse env req).calls = before ++ [Call.ParseText transcript tz] ∧
      ∀ c ∈ before, c.isTranscribe = true) := by
  obtain ⟨err, herr⟩ := (ParseText_error_iff env transcript tz).2 hfail
  refine ⟨⟨err, herr⟩, ?_⟩
  rcases handleParse_reaches env req with hnil | ⟨calls, t, hcalls, hrun⟩
  · rw [hnil] at hcall
    simp at hcall
  · rw [hrun] at hcall ⊢
    obtain ⟨ht, hz, hb⟩ := handleParseText_call env req _ calls t transcript tz hcalls hcall
    rw [ht, hz] at herr
    rw [handleParseText_failed env req _ calls t err hb herr, ← ht, ← hz]
    exact ⟨rfl, calls, rfl, hcalls⟩

/-- C9 at a concrete request: hint text only, and a completion service that returns no
choice. -/
theorem handleParse_extraction_failure_witness :
    (∃ err, ParseText sampleEnvNoChoices "Paid 500 for groceries today" "Europe/London" =
      Except.error err) ∧
    (handleParse sampleEnvNoChoices sampleTextOnly).response =
      Response.JSON 422 [("error", Any.str "could_not_parse"),
        ("transcript", Any.str "Paid 500 for groceries today")] ∧
    (∃ before, (handleParse sampleEnvNoChoices sampleTextOnly).calls =
        before ++ [Call.ParseText "Paid 500 for groceries today" "Europe/London"] ∧
      ∀ c ∈ before, c.isTranscribe = true) :=
  handleParse_extraction_failure sampleEnvNoChoices sampleTextOnly
    "Paid 500 for groceries today" "Europe/London"
    (List.mem_singleton.2 rfl)
    (Or.inr (Or.inr ⟨⟨200, "null"⟩, rfl, Or.inr (Or.inr rfl)⟩))

/-- An extraction output that is no JSON text, or a JSON array, string, number or
boolean, is answered 500 "invalid_parse_response" right after decoding. -/
theorem handleParseDecode_not_object (env : Env) (transcript tz : String)
    (calls : List Call) (parsed : String)
    (h : env.jsonValue parsed = none ∨ (∃ xs, env.jsonValue parsed = some (Any.arr xs)) ∨
      (∃ s, env.jsonValue parsed = some (Any.str s)) ∨
      (∃ n, env.jsonValue parsed = some (Any.num n)) ∨
      (∃ b, env.jsonValue parsed = some (Any.bool b))) :
    handleParseDecode env transcript tz calls parsed =
      ⟨calls ++ [Call.Unmarshal parsed],
        Response.JSON 500 [("error", Any.str "invalid_parse_response")]⟩ := by
  rcases h with h | ⟨xs, h⟩ | ⟨s, h⟩ | ⟨n, h⟩ | ⟨b, h⟩ <;>
    simp only [handleParseDecode, Unmarshal, h]

/-- The extraction output `null` decodes without error to the nil map, on which
`ensureDate` panics. -/
theorem handleParseDecode_null (env : Env) (transcript tz : String)
    (calls : List Call) (parsed : String) (h : env.jsonValue parsed = some Any.null) :
    handleParseDecode env transcript tz calls parsed =
      ⟨calls ++ [Call.Unmarshal parsed] ++ [Call.ensureDate none transcript tz],
        Response.panicked "assignment to entry in nil map"⟩ := by
  have hu : Unmarshal env parsed = Except.ok none := by
    simp only [Unmarshal, h]
  have he : ensureDate env none transcript tz =
      Except.error "assignment to entry in nil map" := by
    have hne := Format_ne_empty (env.nowIn (loadLocationOrIndia env.LoadLocation tz
      env.cfg.TZDefault))
    simp [ensureDate, index, assertString, needsDateConfirmation, TrimSpace_empty, hne]
  exact handleParseDecode_panic env transcript tz calls parsed _ none hu he

/-- C10, the failing input: when the completion service returns the JSON text `null`,
decoding reports no error, `ensureDate` is invoked on the nil map and panics on the
assignment, and the response is not the 500 "invalid_parse_response" answer. -/
theorem handleParse_null_output :
    ParseText sampleEnv "Paid 500 for groceries today" "Europe/London" = Except.ok "null" ∧
    Unmarshal sampleEnv "null" = Except.ok none ∧
    handleParse sampleEnv sampleTextOnly =
      ⟨[Call.ParseText "Paid 500 for groceries today" "Europe/London",
        Call.Unmarshal "null",
        Call.ensureDate none "Paid 500 for groceries today" "Europe/London"],
        Response.panicked "assignment to entry in nil map"⟩ :=
  ⟨rfl, rfl, rfl⟩

/-! ## Every run is one of the outcomes -/

theorem handleParseDecode_extraction (env : Env) (req : ParseRequest) (before : List Call)
    (t parsed : String) (hp : ParseText env t (requestTz env req) = Except.ok parsed) :
    Extraction env req before t (handleParseDecode env t (requestTz env req)
      (before ++ [Call.ParseText t (requestTz env req)]) parsed) := by
  cases hu : Unmarshal env parsed with
  | error e =>
    rw [handleParseDecode_error env t _ _ parsed e hu]
    exact Extraction.invalidResponse parsed e hp hu
  | ok parsedObj =>
    cases he : ensureDate env parsedObj t (requestTz env req) with
    | error msg =>
      rw [handleParseDecode_panic env t _ _ parsed msg parsedObj hu he]
      have := @Extraction.panicked env req before t parsed msg parsedObj hp hu he
      simpa using this
    | ok r =>
      rcases r with ⟨entry, mutated⟩
      cases mutated with
      | true =>
        cases hm : env.jsonMarshal entry with
        | error e =>
          rw [handleParseDecode_marshal_error env t _ _ parsed e parsedObj entry hu he hm]
          have := @Extraction.serializationFailed env req before t parsed e parsedObj entry
            hp hu he hm
          simpa using this
        | ok body =>
          rw [handleParseDecode_mutated env t _ _ parsed body parsedObj entry hu he hm]
          have hres := @Resolved.rewritten env t (requestTz env req) parsed parsedObj entry body hu he hm
          cases hv : env.validate body with
          | error e =>
            rw [handleParseValidate_error env t _ body e hv]
            have := @Extraction.validationFailed env req before t _ parsed body e hp hres hv
            simpa using this
          | ok res =>
            cases hval : res.Valid with
            | false =>
              rw [handleParseValidate_invalid env t _ body res hv hval]
              have := @Extraction.schemaInvalid env req before t _ parsed body res hp hres
                hv hval
              simpa using this
            | true =>
              rw [handleParseValidate_valid env t _ body res hv hval]
              have := @Extraction.success env req before t _ parsed body res hp hres hv hval
              simpa using this
      | false =>
        rw [handleParseDecode_unmutated env t _ _ parsed parsedObj entry hu he]
        have hres := @Resolved.kept env t (requestTz env req) parsed parsedObj entry hu he
        cases hv : env.validate parsed with
        | error e =>
          rw [handleParseValidate_error env t _ parsed e hv]
          have := @Extraction.validationFailed env req before t _ parsed parsed e hp hres hv
          simpa using this
        | ok res =>
          cases hval : res.Valid with
          | false =>
            rw [handleParseValidate_invalid env t _ parsed res hv hval]
            have := @Extraction.schemaInvalid env req before t _ parsed parsed res hp hres
              hv hval
            simpa using this
          | true =>
            rw [handleParseValidate_valid env t _ parsed res hv hval]
            have := @Extraction.success env req before t _ parsed parsed res hp hres hv hval
            simpa using this

theorem handleParseText_outcome (env : Env) (req : ParseRequest) (before : List Call)
    (t0 : String)
    (hsrc : Source env req before (if t0 = "" then req.hint_text else t0)) :
    Outcome env req (handleParseText env req (requestTz env req) before t0) := by
  by_cases hb : TrimSpace (if t0 = "" then req.hint_text else t0) = ""
  · rw [handleParseText_blank env req _ before t0 hb]
    exact Outcome.noText before _ hsrc hb
  · cases hp : ParseText env (if t0 = "" then req.hint_text else t0) (requestTz env req) with
    | error e =>
      rw [handleParseText_failed env req _ before t0 e hb hp]
      exact Outcome.extracted before _ _ hsrc hb (Extraction.couldNotParse e hp)
    | ok parsed =>
      rw [handleParseText_parsed env req _ before t0 parsed hb hp]
      exact Outcome.extracted before _ _ hsrc hb
        (handleParseDecode_extraction env req before _ parsed hp)

/-- Every run of `handleParse` is one of the outcomes. -/
theorem handleParse_outcome (env : Env) (req : ParseRequest) :
    Outcome env req (handleParse env req) := by
  cases hf : req.file with
  | none =>
    rw [handleParse_no_file env req hf]
    apply handleParseText_outcome
    simpa using Source.hintOnly hf
  | some header =>
    by_cases hsize : header.Size > uploadLimit env.cfg
    · rw [handleParse_too_large env req header hf hsize]
      exact Outcome.tooLarge header hf hsize
    · cases hread : header.content with
      | none =>
        rw [handleParse_unreadable env req header hf hsize hread]
        exact Outcome.unreadable header hf hsize hread
      | some buf =>
        cases ht : Transcribe env header.Filename buf with
        | ok t =>
          rw [handleParse_transcribed env req header buf t hf hsize hread ht]
          apply handleParseText_outcome
          by_cases h0 : t = ""
          · subst h0
            simpa using Source.fallback header buf hf hsize hread (Or.inr ht)
          · simpa [h0] using Source.transcribed header buf t hf hsize hread ht h0
        | error e =>
          rw [handleParse_stt_failed env req header buf e hf hsize hread ht]
          apply handleParseText_outcome
          simpa using Source.fallback header buf hf hsize hread (Or.inl ⟨e, ht⟩)

theorem Source_calls (env : Env) (req : ParseRequest) (before : List Call) (t : String)
    (h : Source env req before t) : ∀ c ∈ before, c.isTranscribe = true := by
  cases h <;> simp [Call.isTranscribe]

theorem Resolved_calls (env : Env) (transcript tz parsed : String) (stage : List Call)
    (body : String) (h : Resolved env transcript tz parsed stage body) :
    ∀ c ∈ stage, c.isLater = true ∧ ∀ b, c ≠ Call.Validate b := by
  cases h <;> simp [Call.isLater]

/-! ## Lemmas for the transcript -/

theorem dropWhile_isSpace_head (l : List Char) :
    l.dropWhile isSpace = [] ∨
      ∃ c rest, l.dropWhile isSpace = c :: rest ∧ isSpace c = false := by
  induction l with
  | nil => exact Or.inl rfl
  | cons a rest ih =>
    cases ha : isSpace a with
    | true => simpa [List.dropWhile_cons, ha] using ih
    | false => exact Or.inr ⟨a, rest, by simp [List.dropWhile_cons, ha], ha⟩

/-- White space is trimmed once and for all. -/
theorem trimChars_idem (l : List Char) : trimChars (trimChars l) = trimChars l := by
  have hdef : ∀ x : List Char, trimChars x = List.rdropWhile isSpace (x.dropWhile isSpace) :=
    fun _ => rfl
  have hfix : (trimChars l).dropWhile isSpace = trimChars l := by
    obtain ⟨rest, hrest⟩ := List.rdropWhile_prefix isSpace (l.dropWhile isSpace)
    rw [← hdef] at hrest
    cases hr : trimChars l with
    | nil => rfl
    | cons c r =>
      rw [hr] at hrest
      rcases dropWhile_isSpace_head l with h0 | ⟨c2, rest2, h1, h2⟩
      · rw [h0] at hrest
        simp at hrest
      · rw [h1] at hrest
        simp only [List.cons_append, List.cons.injEq] at hrest
        rw [hrest.1]
        simp [List.dropWhile_cons, h2]
  rw [hdef (trimChars l), hfix, hdef l, List.rdropWhile_idempotent]

theorem TrimSpace_idem (s : String) : TrimSpace (TrimSpace s) = TrimSpace s := by
  simp only [TrimSpace, trimChars_idem]

/-- A text that `Transcribe` returns has no surrounding white space. -/
theorem Transcribe_trimmed (env : Env) (filename : String) (data : List Nat) (t : String)
    (h : Transcribe env filename data = Except.ok t) : TrimSpace t = t := by
  unfold Transcribe at h
  split at h
  · exact absurd h (by simp)
  · split at h
    · exact absurd h (by simp)
    · split at h
      · exact absurd h (by simp)
      · split at h
        · exact absurd h (by simp)
        · simp only [Except.ok.injEq] at h
          rw [← h]
          exact TrimSpace_idem _

/-- The trace of a run that reaches extraction: the calls before, the extraction call,
then later stages only. -/
theorem Extraction_calls (env : Env) (req : ParseRequest) (before : List Call) (t : String)
    (run : Run) (h : Extraction env req before t run) :
    ∃ rest, run.calls = before ++ Call.ParseText t (requestTz env req) :: rest ∧
      ∀ c ∈ rest, c.isLater = true := by
  cases h with
  | couldNotParse err hp => exact ⟨[], rfl, by simp⟩
  | invalidResponse parsed err hp hu =>
    exact ⟨[Call.Unmarshal parsed], by simp, by simp [Call.isLater]⟩
  | panicked parsed msg parsedObj hp hu he =>
    exact ⟨[Call.Unmarshal parsed, Call.ensureDate parsedObj t (requestTz env req)], by simp,
      by simp [Call.isLater]⟩
  | serializationFailed parsed err parsedObj entry hp hu he hm =>
    exact ⟨[Call.Unmarshal parsed, Call.ensureDate parsedObj t (requestTz env req),
      Call.Marshal entry], by simp, by simp [Call.isLater]⟩
  | validationFailed stage parsed body err hp hres hv =>
    refine ⟨stage ++ [Call.Validate body], by simp, ?_⟩
    intro c hc
    rcases List.mem_append.1 hc with h | h
    · exact (Resolved_calls env _ _ _ _ _ hres c h).1
    · simp only [List.mem_singleton] at h
      subst h
      rfl
  | schemaInvalid stage parsed body res hp hres hv hval =>
    refine ⟨stage ++ [Call.Validate body], by simp, ?_⟩
    intro c hc
    rcases List.mem_append.1 hc with h | h
    · exact (Resolved_calls env _ _ _ _ _ hres c h).1
    · simp only [List.mem_singleton] at h
      subst h
      rfl
  | success stage parsed body res hp hres hv hval =>
    refine ⟨stage ++ [Call.Validate body], by simp, ?_⟩
    intro c hc
    rcases List.mem_append.1 hc with h | h
    · exact (Resolved_calls env _ _ _ _ _ hres c h).1
    · simp only [List.mem_singleton] at h
      subst h
      rfl

/-- An extraction call in a trace is the one of the run: on the run's transcript and zone
name, and the run is one of the seven that follow it. -/
theorem Outcome_ParseText (env : Env) (req : ParseRequest) (run : Run)
    (h : Outcome env req run) (t z : String) (hmem : Call.ParseText t z ∈ run.calls) :
    z = requestTz env req ∧ TrimSpace t ≠ "" ∧
      ∃ before, Source env req before t ∧ Extraction env req before t run := by
  cases h with
  | tooLarge header hf hs => simp at hmem
  | unreadable header hf hs hr => simp at hmem
  | noText before t0 hsrc hb =>
    have := Source_calls env req before t0 hsrc _ hmem
    simp [Call.isTranscribe] at this
  | extracted before t0 run hsrc hb hext =>
    obtain ⟨rest, hcalls, hlater⟩ := Extraction_calls env req before t0 run hext
    rw [hcalls] at hmem
    rcases List.mem_append.1 hmem with h1 | h2
    · have := Source_calls env req before t0 hsrc _ h1
      simp [Call.isTranscribe] at this
    · rcases List.mem_cons.1 h2 with h3 | h4
      · simp only [Call.ParseText.injEq] at h3
        obtain ⟨rfl, rfl⟩ := h3
        exact ⟨rfl, hb, before, hsrc, hext⟩
      · have := hlater _ h4
        simp [Call.isLater] at this

/-! ## C11-C15: the responses of `handleParse` -/

/-- C11, as stated, fails: a run with the non-blank transcript "Paid 500 for groceries
today" whose extraction output is prose ends in 500 "invalid_parse_response", and that
response has no transcript. -/
theorem handleParse_prose_drops_transcript :
    TrimSpace "Paid 500 for groceries today" ≠ "" ∧
    handleParse sampleEnvProse sampleTextOnly =
      ⟨[Call.ParseText "Paid 500 for groceries today" "Europe/London",
        Call.Unmarshal "Sorry, I cannot help."],
        Response.JSON 500 [("error", Any.str "invalid_parse_response")]⟩ ∧
    lookup "transcript" [("error", Any.str "invalid_parse_response")] = none :=
  ⟨by decide, rfl, rfl⟩

/-- C11 (amended): for every run of `handleParse` that called ParseText on a transcript,
a response of status 422 is "could_not_parse" or "schema_invalid" and holds that
transcript in its `transcript` field; a JSON response of status 500
("invalid_parse_response", "serialization_failed", "validation_failed") holds no
transcript. -/
theorem handleParse_422_keeps_transcript (env : Env) (req : ParseRequest) (t z : String)
    (hcall : Call.ParseText t z ∈ (handleParse env req).calls) :
    ((handleParse env req).response.code = 422 →
      ((handleParse env req).response =
          Response.JSON 422 [("error", Any.str "could_not_parse"),
            ("transcript", Any.str t)] ∨
        ∃ details, (handleParse env req).response =
          Response.JSON 422 [("error", Any.str "schema_invalid"), ("details", details),
            ("transcript", Any.str t)]) ∧
      ∃ obj, (handleParse env req).response = Response.JSON 422 obj ∧
        lookup "transcript" obj = some (Any.str t)) ∧
    (∀ obj, (handleParse env req).response = Response.JSON 500 obj →
      lookup "transcript" obj = none) := by
  have hout := handleParse_outcome env req
  generalize handleParse env req = run at hout hcall
  obtain ⟨-, -, before, -, hext⟩ := Outcome_ParseText env req run hout t z hcall
  cases hext with
  | couldNotParse err hp =>
    exact ⟨fun _ => ⟨Or.inl rfl, _, rfl, rfl⟩, fun obj h => by simp at h⟩
  | invalidResponse parsed err hp hu =>
    refine ⟨fun h => by simp [Response.code] at h, fun obj h => ?_⟩
    simp only [Response.JSON.injEq, true_and] at h
    subst h
    rfl
  | panicked parsed msg parsedObj hp hu he =>
    exact ⟨fun h => by simp [Response.code] at h, fun obj h => by simp at h⟩
  | serializationFailed parsed err parsedObj entry hp hu he hm =>
    refine ⟨fun h => by simp [Response.code] at h, fun obj h => ?_⟩
    simp only [Response.JSON.injEq, true_and] at h
    subst h
    rfl
  | validationFailed stage parsed body err hp hres hv =>
    refine ⟨fun h => by simp [Response.code] at h, fun obj h => ?_⟩
    simp only [Response.JSON.injEq, true_and] at h
    subst h
    rfl
  | schemaInvalid stage parsed body res hp hres hv hval =>
    exact ⟨fun _ => ⟨Or.inr ⟨_, rfl⟩, _, rfl, rfl⟩, fun obj h => by simp at h⟩
  | success stage parsed body res hp hres hv hval =>
    exact ⟨fun h => by simp [Response.code] at h, fun obj h => by simp at h⟩

/-- C11 (amended) at a concrete run: the completion service returns no choice. -/
theorem handleParse_422_keeps_transcript_witness :
    ((handleParse sampleEnvNoChoices sampleTextOnly).response.code = 422 →
      ((handleParse sampleEnvNoChoices sampleTextOnly).response =
          Response.JSON 422 [("error", Any.str "could_not_parse"),
            ("transcript", Any.str "Paid 500 for groceries today")] ∨
        ∃ details, (handleParse sampleEnvNoChoices sampleTextOnly).response =
          Response.JSON 422 [("error", Any.str "schema_invalid"), ("details", details),
            ("transcript", Any.str "Paid 500 for groceries today")]) ∧
      ∃ obj, (handleParse sampleEnvNoChoices sampleTextOnly).response =
          Response.JSON 422 obj ∧
        lookup "transcript" obj = some (Any.str "Paid 500 for groceries today")) ∧
    (∀ obj, (handleParse sampleEnvNoChoices sampleTextOnly).response =
        Response.JSON 500 obj → lookup "transcript" obj = none) :=
  handleParse_422_keeps_transcript sampleEnvNoChoices sampleTextOnly
    "Paid 500 for groceries today" "Europe/London" (List.mem_singleton.2 rfl)

theorem ParseText_transport_error (env : Env) (transcript tz err : String)
    (hkey : env.cfg.OpenAIKey ≠ "")
    (hdo : env.chatDo (ParseTextRequest env transcript tz) = Except.error err) :
    ParseText env transcript tz = Except.error err := by
  simp only [ParseText, hkey, if_false, hdo]

theorem Transcribe_transport_error (env : Env) (filename : String) (data : List Nat)
    (err : String) (hkey : env.cfg.OpenAIKey ≠ "")
    (hdo : env.sttDo
      { url := env.cfg.OpenAIBaseURL ++ "/audio/transcriptions"
        authorization := "Bearer " ++ env.cfg.OpenAIKey
        filename := filename
        file := data
        model := env.cfg.OpenAIWhisper } = Except.error err) :
    Transcribe env filename data = Except.error err := by
  simp only [Transcribe, hkey, if_false, hdo]

/-- C12, as stated, fails: when both round trips run into the deadline, the handler still
calls ParseText after the timed-out transcription, and its answer is the 422
"could_not_parse" it gives when the completion service returns no choice. -/
theorem handleParse_timeout_continues :
    Transcribe sampleEnvTimeout "note.m4a" [82, 73, 70, 70] =
      Except.error deadlineExceeded ∧
    ParseText sampleEnvTimeout "paid 500 for tea" "Asia/Kolkata" =
      Except.error deadlineExceeded ∧
    handleParse sampleEnvTimeout sampleWithHint =
      ⟨[Call.Transcribe "note.m4a" [82, 73, 70, 70],
        Call.ParseText "paid 500 for tea" "Asia/Kolkata"],
        Response.JSON 422 [("error", Any.str "could_not_parse"),
          ("transcript", Any.str "paid 500 for tea")]⟩ ∧
    (handleParse sampleEnvTimeout sampleTextOnly).response =
      (handleParse sampleEnvNoChoices sampleTextOnly).response :=
  ⟨rfl, rfl, rfl, rfl⟩

/-- C12 (amended): a round trip that ends in an error, the expiry of the request deadline
included, is handled like any other failure of that call. In the extraction call it ends
the run: the response is 422 "could_not_parse" with the transcript and no later stage
runs. In the transcription call it is absorbed: with a blank hint text the run ends in
400 "no audio or hint_text provided", with any other hint text the extraction call
follows on the hint text. -/
theorem handleParse_deadline_as_failure (env : Env) (req : ParseRequest)
    (hkey : env.cfg.OpenAIKey ≠ "") :
    (∀ t z err, Call.ParseText t z ∈ (handleParse env req).calls →
      env.chatDo (ParseTextRequest env t z) = Except.error err →
      (handleParse env req).response =
        Response.JSON 422 [("error", Any.str "could_not_parse"),
          ("transcript", Any.str t)] ∧
      ∃ before, (handleParse env req).calls = before ++ [Call.ParseText t z] ∧
        ∀ c ∈ before, c.isTranscribe = true) ∧
    (∀ header buf err, req.file = some header → ¬ header.Size > uploadLimit env.cfg →
      header.content = some buf →
      env.sttDo
        { url := env.cfg.OpenAIBaseURL ++ "/audio/transcriptions"
          authorization := "Bearer " ++ env.cfg.OpenAIKey
          filename := header.Filename
          file := buf
          model := env.cfg.OpenAIWhisper } = Except.error err →
      (TrimSpace req.hint_text = "" →
        handleParse env req =
          ⟨[Call.Transcribe header.Filename buf],
            Response.JSON 400 [("error", Any.str "no audio or hint_text provided")]⟩) ∧
      (TrimSpace req.hint_text ≠ "" →
        ∃ rest, (handleParse env req).calls =
          Call.Transcribe header.Filename buf ::
            Call.ParseText req.hint_text (requestTz env req) :: rest)) := by
  constructor
  · intro t z err hcall hdo
    have hout := handleParse_outcome env req
    generalize handleParse env req = run at hout hcall
    obtain ⟨hz, -, before, hsrc, hext⟩ := Outcome_ParseText env req run hout t z hcall
    subst hz
    have herr := ParseText_transport_error env t _ err hkey hdo
    cases hext with
    | couldNotParse err2 hp => exact ⟨rfl, before, rfl, Source_calls env req before t hsrc⟩
    | invalidResponse parsed err2 hp hu => rw [herr] at hp; exact absurd hp (by simp)
    | panicked parsed msg parsedObj hp hu he => rw [herr] at hp; exact absurd hp (by simp)
    | serializationFailed parsed err2 parsedObj entry hp hu he hm =>
      rw [herr] at hp; exact absurd hp (by simp)
    | validationFailed stage parsed body err2 hp hres hv =>
      rw [herr] at hp; exact absurd hp (by simp)
    | schemaInvalid stage parsed body res hp hres hv hval =>
      rw [herr] at hp; exact absurd hp (by simp)
    | success stage parsed body res hp hres hv hval =>
      rw [herr] at hp; exact absurd hp (by simp)
  · intro header buf err hfile hsize hread hdo
    have hstt := Transcribe_transport_error env header.Filename buf err hkey hdo
    rw [handleParse_stt_failed env req header buf err hfile hsize hread hstt]
    constructor
    · intro hblank
      exact handleParseText_blank env req _ _ "" (by simpa using hblank)
    · intro hhint
      have hb : TrimSpace (if ("" : String) = "" then req.hint_text else "") ≠ "" := by
        simpa using hhint
      obtain ⟨⟨rest, hr, -⟩, -⟩ := handleParseText_shape env req (requestTz env req)
        [Call.Transcribe header.Filename buf] "" hb
      simp only [if_true] at hr
      exact ⟨rest, by rw [hr]; rfl⟩

/-- C12 (amended) at a concrete run: both round trips of `sampleEnvTimeout` end in the
deadline error. -/
theorem handleParse_deadline_as_failure_witness :
    ((handleParse sampleEnvTimeout sampleWithHint).response =
        Response.JSON 422 [("error", Any.str "could_not_parse"),
          ("transcript", Any.str "paid 500 for tea")] ∧
      ∃ before, (handleParse sampleEnvTimeout sampleWithHint).calls =
          before ++ [Call.ParseText "paid 500 for tea" "Asia/Kolkata"] ∧
        ∀ c ∈ before, c.isTranscribe = true) ∧
    (∃ rest, (handleParse sampleEnvTimeout sampleWithHint).calls =
      Call.Transcribe "note.m4a" [82, 73, 70, 70] ::
        Call.ParseText sampleWithHint.hint_text
          (requestTz sampleEnvTimeout sampleWithHint) :: rest) :=
  ⟨(handleParse_deadline_as_failure sampleEnvTimeout sampleWithHint (by decide)).1
      "paid 500 for tea" "Asia/Kolkata" deadlineExceeded
      (List.mem_cons_of_mem _ (List.mem_singleton.2 rfl)) rfl,
    ((handleParse_deadline_as_failure sampleEnvTimeout sampleWithHint (by decide)).2
      ⟨"note.m4a", 1024, some [82, 73, 70, 70]⟩ [82, 73, 70, 70] deadlineExceeded
      rfl (by decide) rfl rfl).2 (by decide)⟩

/-- The validator call of a run that reaches validation is the last call and the only
one of its kind. -/
theorem validate_call_unique (env : Env) (req : ParseRequest) (before stage : List Call)
    (t tz parsed body b : String) (hsrc : Source env req before t)
    (hres : Resolved env t tz parsed stage body)
    (hmem : Call.Validate b ∈ before ++ [Call.ParseText t tz] ++ stage ++ [Call.Validate body]) :
    b = body := by
  simp only [List.mem_append, List.mem_singleton, reduceCtorEq, or_false,
    Call.Validate.injEq] at hmem
  rcases hmem with (h1 | h2) | h3
  · have := Source_calls env req before t hsrc _ h1
    simp [Call.isTranscribe] at this
  · exact absurd rfl ((Resolved_calls env _ _ _ _ _ hres _ h2).2 b)
  · exact h3

/-- C13: for every run of `handleParse` that ends with status 200, the response body is
the very text that was passed to the schema validator (the one validator call of the
run) and judged valid; and when the `ensureDate` call of the run reported no mutation,
that text is the content ParseText returned. -/
theorem handleParse_success_body (env : Env) (req : ParseRequest)
    (h200 : (handleParse env req).response.code = 200) :
    ∃ body res t,
      (handleParse env req).response = Response.Data 200 "application/json" body ∧
      Call.Validate body ∈ (handleParse env req).calls ∧
      (∀ b, Call.Validate b ∈ (handleParse env req).calls → b = body) ∧
      env.validate body = Except.ok res ∧ res.Valid = true ∧
      Call.ParseText t (requestTz env req) ∈ (handleParse env req).calls ∧
      (∀ parsedObj entry,
        Call.ensureDate parsedObj t (requestTz env req) ∈ (handleParse env req).calls →
        ensureDate env parsedObj t (requestTz env req) = Except.ok (entry, false) →
        ParseText env t (requestTz env req) = Except.ok body) := by
  have hout := handleParse_outcome env req
  generalize handleParse env req = run at hout h200
  cases hout with
  | tooLarge header hf hs => simp [Response.code] at h200
  | unreadable header hf hs hr => simp [Response.code] at h200
  | noText before t0 hsrc hb => simp [Response.code] at h200
  | extracted before t run hsrc hb hext =>
    cases hext with
    | couldNotParse err hp => simp [Response.code] at h200
    | invalidResponse parsed err hp hu => simp [Response.code] at h200
    | panicked parsed msg parsedObj hp hu he => simp [Response.code] at h200
    | serializationFailed parsed err parsedObj entry hp hu he hm =>
      simp [Response.code] at h200
    | validationFailed stage parsed body err hp hres hv => simp [Response.code] at h200
    | schemaInvalid stage parsed body res hp hres hv hval => simp [Response.code] at h200
    | success stage parsed body res hp hres hv hval =>
      refine ⟨body, res, t, rfl, by simp, ?_, hv, hval, by simp, ?_⟩
      · intro b hb2
        exact validate_call_unique env req before stage t _ parsed body b hsrc hres hb2
      · intro parsedObj entry hmem hkept
        cases hres with
        | kept parsedObj2 entry2 hu he => exact hp
        | rewritten parsedObj2 entry2 body2 hu he hm =>
          simp only [List.mem_append, List.mem_singleton, reduceCtorEq, or_false,
            List.mem_cons, Call.ensureDate.injEq, and_true, false_or, List.mem_nil_iff]
            at hmem
          rcases hmem with h1 | h2
          · have := Source_calls env req before t hsrc _ h1
            simp [Call.isTranscribe] at this
          · subst h2
            rw [he] at hkept
            simp at hkept

/-- C13 at a concrete run: the completion service returns `sampleEntryText`, whose date
is well-formed, and the schema accepts it. -/
theorem handleParse_success_body_witness :
    ∃ body res t,
      (handleParse sampleEnvEntry sampleTextOnly).response =
        Response.Data 200 "application/json" body ∧
      Call.Validate body ∈ (handleParse sampleEnvEntry sampleTextOnly).calls ∧
      (∀ b, Call.Validate b ∈ (handleParse sampleEnvEntry sampleTextOnly).calls →
        b = body) ∧
      sampleEnvEntry.validate body = Except.ok res ∧ res.Valid = true ∧
      Call.ParseText t (requestTz sampleEnvEntry sampleTextOnly) ∈
        (handleParse sampleEnvEntry sampleTextOnly).calls ∧
      (∀ parsedObj entry,
        Call.ensureDate parsedObj t (requestTz sampleEnvEntry sampleTextOnly) ∈
          (handleParse sampleEnvEntry sampleTextOnly).calls →
        ensureDate sampleEnvEntry parsedObj t (requestTz sampleEnvEntry sampleTextOnly) =
          Except.ok (entry, false) →
        ParseText sampleEnvEntry t (requestTz sampleEnvEntry sampleTextOnly) =
          Except.ok body) :=
  handleParse_success_body sampleEnvEntry sampleTextOnly rfl

/-- C14: for every run of `handleParse` in which the schema validator is called and
returns a result, a result that is not valid gives 422 with error "schema_invalid", a
`details` list with the description of each violation in the validator's order, and a
`transcript` field equal to the transcript used for extraction; a valid result gives the
200 response, never 422. -/
theorem handleParse_schema_verdict (env : Env) (req : ParseRequest) (body : String)
    (res : ValidationResult)
    (hcall : Call.Validate body ∈ (handleParse env req).calls)
    (hv : env.validate body = Except.ok res) :
    (res.Valid = false →
      ∃ t, Call.ParseText t (requestTz env req) ∈ (handleParse env req).calls ∧
        (handleParse env req).response =
          Response.JSON 422 [("error", Any.str "schema_invalid"),
            ("details", Any.arr (res.Errors.map Any.str)),
            ("transcript", Any.str t)]) ∧
    (res.Valid = true →
      (handleParse env req).response = Response.Data 200 "application/json" body ∧
      (handleParse env req).response.code ≠ 422) := by
  have hout := handleParse_outcome env req
  generalize handleParse env req = run at hout hcall
  cases hout with
  | tooLarge header hf hs => simp at hcall
  | unreadable header hf hs hr => simp at hcall
  | noText before t0 hsrc hb =>
    have := Source_calls env req before t0 hsrc _ hcall
    simp [Call.isTranscribe] at this
  | extracted before t run hsrc hb hext =>
    have hbefore : Call.Validate body ∉ before := by
      intro h
      have := Source_calls env req before t hsrc _ h
      simp [Call.isTranscribe] at this
    cases hext with
    | couldNotParse err hp => simp [hbefore] at hcall
    | invalidResponse parsed err hp hu => simp [hbefore] at hcall
    | panicked parsed msg parsedObj hp hu he => simp [hbefore] at hcall
    | serializationFailed parsed err parsedObj entry hp hu he hm => simp [hbefore] at hcall
    | validationFailed stage parsed body2 err hp hres hv2 =>
      have hb2 := validate_call_unique env req before stage t _ parsed body2 body hsrc hres hcall
      subst hb2
      rw [hv] at hv2
      simp at hv2
    | schemaInvalid stage parsed body2 res2 hp hres hv2 hval =>
      have hb2 := validate_call_unique env req before stage t _ parsed body2 body hsrc hres hcall
      subst hb2
      rw [hv] at hv2
      simp only [Except.ok.injEq] at hv2
      subst hv2
      refine ⟨fun _ => ⟨t, by simp, rfl⟩, fun h => ?_⟩
      rw [hval] at h
      simp at h
    | success stage parsed body2 res2 hp hres hv2 hval =>
      have hb2 := validate_call_unique env req before stage t _ parsed body2 body hsrc hres hcall
      subst hb2
      rw [hv] at hv2
      simp only [Except.ok.injEq] at hv2
      subst hv2
      refine ⟨fun h => ?_, fun _ => ⟨rfl, by simp [Response.code]⟩⟩
      rw [hval] at h
      simp at h

/-- C14 at a concrete run: the schema reports two violations on `sampleEntryText`. -/
theorem handleParse_schema_verdict_witness :
    ∃ t, Call.ParseText t (requestTz sampleEnvInvalid sampleTextOnly) ∈
        (handleParse sampleEnvInvalid sampleTextOnly).calls ∧
      (handleParse sampleEnvInvalid sampleTextOnly).response =
        Response.JSON 422 [("error", Any.str "schema_invalid"),
          ("details", Any.arr (["(root): currency is required", "amount: Invalid type"].map
            Any.str)),
          ("transcript", Any.str t)] :=
  (handleParse_schema_verdict sampleEnvInvalid sampleTextOnly sampleEntryText
    ⟨false, ["(root): currency is required", "amount: Invalid type"]⟩
    (List.mem_cons_of_mem _ (List.mem_cons_of_mem _ (List.mem_cons_of_mem _
      (List.mem_singleton.2 rfl)))) rfl).1 rfl

/-- C15, as stated, fails: the hint text " paid 500 " reaches ParseText with its
blanks. -/
theorem handleParse_padded_hint_passed :
    handleParse sampleEnvNoChoices samplePaddedHint =
      ⟨[Call.ParseText " paid 500 " "Europe/London"],
        Response.JSON 422 [("error", Any.str "could_not_parse"),
          ("transcript", Any.str " paid 500 ")]⟩ ∧
    TrimSpace " paid 500 " = "paid 500" ∧ TrimSpace " paid 500 " ≠ " paid 500 " :=
  ⟨rfl, rfl, by decide⟩

/-- C15 (amended): whenever `handleParse` invokes ParseText, the transcript is not blank
(so not empty); it is either the text `Transcribe` returned, which has no leading or
trailing white space, or the hint text as submitted, white space included. -/
theorem handleParse_transcript_nonblank (env : Env) (req : ParseRequest) (t z : String)
    (hcall : Call.ParseText t z ∈ (handleParse env req).calls) :
    TrimSpace t ≠ "" ∧ t ≠ "" ∧
    (t = req.hint_text ∨
      ∃ filename data, Call.Transcribe filename data ∈ (handleParse env req).calls ∧
        Transcribe env filename data = Except.ok t ∧ TrimSpace t = t) := by
  have hout := handleParse_outcome env req
  generalize handleParse env req = run at hout hcall
  obtain ⟨-, hb, before, hsrc, hext⟩ := Outcome_ParseText env req run hout t z hcall
  refine ⟨hb, ?_, ?_⟩
  · intro h0
    subst h0
    exact hb TrimSpace_empty
  · obtain ⟨rest, hcalls, -⟩ := Extraction_calls env req before t run hext
    cases hsrc with
    | hintOnly hf => exact Or.inl rfl
    | transcribed header buf t2 hf hs hr ht hne =>
      refine Or.inr ⟨header.Filename, buf, ?_, ht, Transcribe_trimmed env _ _ t ht⟩
      rw [hcalls]
      simp
    | fallback header buf hf hs hr ht => exact Or.inl rfl

/-- C15 (amended) at a concrete run: the padded hint text. -/
theorem handleParse_transcript_nonblank_witness :
    TrimSpace " paid 500 " ≠ "" ∧ " paid 500 " ≠ "" ∧
    (" paid 500 " = samplePaddedHint.hint_text ∨
      ∃ filename data,
        Call.Transcribe filename data ∈ (handleParse sampleEnvNoChoices samplePaddedHint).calls ∧
        Transcribe sampleEnvNoChoices filename data = Except.ok " paid 500 " ∧
        TrimSpace " paid 500 " = " paid 500 ") :=
  handleParse_transcript_nonblank sampleEnvNoChoices samplePaddedHint " paid 500 "
    "Europe/London" (List.mem_singleton.2 rfl)

/-! ## C16-C19: zones, the mutation flag, the first choice -/

/-- A zone name that is not blank resolves to the same zone in `ParseText` and in
`loadLocationOrIndia`. -/
theorem ParseTextLocation_of_nonblank (env : Env) (tz : String) (h : TrimSpace tz ≠ "") :
    ParseTextLocation env tz = loadLocationOrIndia env.LoadLocation tz env.cfg.TZDefault := by
  simp only [ParseTextLocation, loadLocationOrIndia, h, if_false]

/-- C16, the failing input: with the form value `tz` = " " and the default
"Europe/London", `handleParse` passes " " on to both stages; ParseText computes its
"Today is" date in "Asia/Kolkata" (2026-11-05 on the sample clock), `ensureDate` stamps
the date of `loadLocationOrIndia`, which is "Europe/London" (2026-11-04). -/
theorem handleParse_blank_tz_two_zones :
    requestTz sampleEnvFlagged sampleBlankTz = " " ∧
    ParseTextLocation sampleEnvFlagged " " = Location.zone "Asia/Kolkata" ∧
    loadLocationOrIndia sampleEnvFlagged.LoadLocation " " sampleEnvFlagged.cfg.TZDefault =
      Location.zone "Europe/London" ∧
    (ParseTextRequest sampleEnvFlagged "Paid 500 for groceries today" " ").user =
      "Context: Timezone is  . Today is 2026-11-05.\nText: Paid 500 for groceries today" ∧
    (handleParse sampleEnvFlagged sampleBlankTz).calls =
      [Call.ParseText "Paid 500 for groceries today" " ",
        Call.Unmarshal sampleFlaggedText,
        Call.ensureDate (some sampleFlagged) "Paid 500 for groceries today" " ",
        Call.Marshal (some (sampleFlagged ++ [("date", Any.str "2026-11-04")])),
        Call.Validate "re-serialized"] :=
  ⟨rfl, rfl, rfl, rfl, rfl⟩

theorem assign_eq_self_iff (k : String) (v : Any) (kvs : List (String × Any)) :
    assign k v kvs = kvs ↔ lookup k kvs = some v := by
  constructor
  · intro h
    have := lookup_assign_same k v kvs
    rwa [h] at this
  · intro h
    induction kvs with
    | nil => simp [lookup] at h
    | cons p rest ih =>
      rcases p with ⟨k2, v2⟩
      by_cases hk : k2 = k
      · subst hk
        simp only [lookup, if_true, Option.some.injEq] at h
        subst h
        simp [assign]
      · simp only [lookup, hk, if_false] at h
        simp [assign, hk, ih h]

/-- The keeping branch of `ensureDate`, from the negation of the overwriting
condition. -/
theorem ensureDate_not_overwrites (env : Env) (kvs : List (String × Any))
    (transcript tz : String)
    (h : ¬ (needsDateConfirmation (some kvs) = true ∨
      Parse (TrimSpace (assertString (lookup "date" kvs))) = none)) :
    ensureDate env (some kvs) transcript tz = Except.ok (some kvs, false) := by
  have hn : needsDateConfirmation (some kvs) = false := by
    cases hc : needsDateConfirmation (some kvs) with
    | false => rfl
    | true => exact absurd (Or.inl hc) h
  have hp : Parse (TrimSpace (assertString (lookup "date" kvs))) ≠ none :=
    fun hp => h (Or.inr hp)
  obtain ⟨d, hd⟩ := Option.ne_none_iff_exists'.1 hp
  have hne : TrimSpace (assertString (lookup "date" kvs)) ≠ "" := by
    intro h0
    rw [h0, Parse_empty] at hd
    exact absurd hd (by simp)
  simp [ensureDate, index, hn, hd, hne]

/-- C17, as stated, fails: an entry that asks for confirmation and is already dated
today comes back unchanged, and `ensureDate` returns true. -/
theorem ensureDate_true_without_change :
    ensureDate sampleEnv (some sampleFlaggedToday) "paid 500" "" =
      Except.ok (some sampleFlaggedToday, true) :=
  rfl

/-- C17 (amended): on a non-nil entry `ensureDate` returns false only when the entry is
unchanged (so a changed entry always comes with true), and it returns true exactly when
it assigned today's date to `date`; that assignment changes the entry unless `date`
already held today's date text. -/
theorem ensureDate_mutation_flag (env : Env) (kvs : List (String × Any))
    (transcript tz : String) (after : GoMap) (mutated : Bool)
    (h : ensureDate env (some kvs) transcript tz = Except.ok (after, mutated)) :
    (mutated = false → after = some kvs) ∧
    (after ≠ some kvs → mutated = true) ∧
    (mutated = true →
      after = some (assign "date" (Any.str (Format (env.nowIn
        (loadLocationOrIndia env.LoadLocation tz env.cfg.TZDefault)))) kvs) ∧
      (after ≠ some kvs ↔
        lookup "date" kvs ≠ some (Any.str (Format (env.nowIn
          (loadLocationOrIndia env.LoadLocation tz env.cfg.TZDefault)))))) := by
  by_cases hover : needsDateConfirmation (some kvs) = true ∨
      Parse (TrimSpace (assertString (lookup "date" kvs))) = none
  · rw [ensureDate_overwrites env kvs transcript tz hover] at h
    simp only [Except.ok.injEq, Prod.mk.injEq] at h
    obtain ⟨h1, h2⟩ := h
    subst h1 h2
    refine ⟨fun hf => by simp at hf, fun _ => rfl, fun _ => ⟨rfl, ?_⟩⟩
    simp only [ne_eq, Option.some.injEq]
    exact not_congr (assign_eq_self_iff _ _ _)
  · rw [ensureDate_not_overwrites env kvs transcript tz hover] at h
    simp only [Except.ok.injEq, Prod.mk.injEq] at h
    obtain ⟨h1, h2⟩ := h
    subst h1 h2
    exact ⟨fun _ => rfl, fun hne => absurd rfl hne, fun hf => by simp at hf⟩

/-- C17 (amended) at a concrete entry: the flagged entry already dated today is
assigned today's date and stays the same entry. -/
theorem ensureDate_mutation_flag_witness :
    some sampleFlaggedToday =
      some (assign "date" (Any.str (Format (sampleEnv.nowIn
        (loadLocationOrIndia sampleEnv.LoadLocation "" sampleEnv.cfg.TZDefault))))
        sampleFlaggedToday) ∧
    (some sampleFlaggedToday ≠ some sampleFlaggedToday ↔
      lookup "date" sampleFlaggedToday ≠
        some (Any.str (Format (sampleEnv.nowIn
          (loadLocationOrIndia sampleEnv.LoadLocation "" sampleEnv.cfg.TZDefault))))) :=
  (ensureDate_mutation_flag sampleEnv sampleFlaggedToday "paid 500" "" _ true rfl).2.2 rfl

/-- C18: for every completion-service response with status below 300, when the decoded
body has at least one choice `ParseText` returns the content of the first choice as it
is, and when it has no choice `ParseText` returns the error "no choices" and no
payload. -/
theorem ParseText_first_choice (env : Env) (transcript tz : String) (resp : HttpResponse)
    (hkey : env.cfg.OpenAIKey ≠ "")
    (hdo : env.chatDo (ParseTextRequest env transcript tz) = Except.ok resp)
    (hstatus : resp.StatusCode < 300) :
    (∀ content rest, env.decodeChoices resp.Body = Except.ok (content :: rest) →
      ParseText env transcript tz = Except.ok content) ∧
    (env.decodeChoices resp.Body = Except.ok [] →
      ParseText env transcript tz = Except.error "no choices") := by
  have hs : ¬ resp.StatusCode ≥ 300 := by omega
  constructor
  · intro content rest hc
    simp only [ParseText, hkey, if_false, hdo, hs, hc]
  · intro hc
    simp only [ParseText, hkey, if_false, hdo, hs, hc]

/-- C18 at concrete responses: a body with the single choice `null`, and a body with
no choice. -/
theorem ParseText_first_choice_witness :
    ParseText sampleEnv "paid 500 for tea" "Asia/Kolkata" = Except.ok "null" ∧
    ParseText sampleEnvNoChoices "paid 500 for tea" "Asia/Kolkata" =
      Except.error "no choices" :=
  ⟨(ParseText_first_choice sampleEnv "paid 500 for tea" "Asia/Kolkata" ⟨200, "null"⟩
      (by decide) rfl (by decide)).1 "null" [] rfl,
    (ParseText_first_choice sampleEnvNoChoices "paid 500 for tea" "Asia/Kolkata"
      ⟨200, "null"⟩ (by decide) rfl (by decide)).2 rfl⟩

/-- C19: `loadLocationOrIndia` is total. For every requested string, fallback string and
loader it returns a location, which is a zone the loader returned or the fixed zone
"IST" 19800 seconds east of UTC; when neither the chosen name (the request, or the
fallback for a blank request, or "Asia/Kolkata" when both are blank) nor "Asia/Kolkata"
loads, and so when no name loads at all, it is that fixed zone. -/
theorem loadLocationOrIndia_total (load : String → Option Location)
    (requested fallback : String) :
    (∃ loc, loadLocationOrIndia load requested fallback = loc ∧
      ((∃ name, load name = some loc) ∨ loc = Location.fixedZone "IST" 19800)) ∧
    (load (if TrimSpace requested ≠ "" then requested
        else if TrimSpace fallback ≠ "" then fallback else "Asia/Kolkata") = none →
      load "Asia/Kolkata" = none →
      loadLocationOrIndia load requested fallback = Location.fixedZone "IST" 19800) ∧
    ((∀ name, load name = none) →
      loadLocationOrIndia load requested fallback = Location.fixedZone "IST" 19800) := by
  have hchosen : (if TrimSpace (if TrimSpace requested = "" then fallback else requested) = ""
      then "Asia/Kolkata" else (if TrimSpace requested = "" then fallback else requested)) =
      (if TrimSpace requested ≠ "" then requested
        else if TrimSpace fallback ≠ "" then fallback else "Asia/Kolkata") := by
    by_cases h1 : TrimSpace requested = "" <;> by_cases h2 : TrimSpace fallback = "" <;>
      simp [h1, h2]
  have hkey : ∀ c : String, load c = none → load "Asia/Kolkata" = none →
      (match load c with
        | some loc => loc
        | none =>
          match load "Asia/Kolkata" with
          | some loc => loc
          | none => Location.fixedZone "IST" (5 * 3600 + 1800)) =
        Location.fixedZone "IST" 19800 := by
    intro c h1 h2
    simp only [h1, h2]
    rfl
  refine ⟨⟨_, rfl, ?_⟩, ?_, ?_⟩
  · simp only [loadLocationOrIndia]
    rw [hchosen]
    cases h1 : load (if TrimSpace requested ≠ "" then requested
        else if TrimSpace fallback ≠ "" then fallback else "Asia/Kolkata") with
    | some loc => exact Or.inl ⟨_, h1⟩
    | none =>
      cases h2 : load "Asia/Kolkata" with
      | some loc => exact Or.inl ⟨_, h2⟩
      | none => exact Or.inr rfl
  · intro h1 h2
    simp only [loadLocationOrIndia]
    rw [hchosen]
    exact hkey _ h1 h2
  · intro hall
    simp only [loadLocationOrIndia]
    exact hkey _ (hall _) (hall _)

/-- C19 at a loader that loads nothing: the fixed +5:30 zone. -/
theorem loadLocationOrIndia_total_witness :
    loadLocationOrIndia sampleLoadNothing "Europe/Paris" "America/Lima" =
      Location.fixedZone "IST" 19800 :=
  (loadLocationOrIndia_total sampleLoadNothing "Europe/Paris" "America/Lima").2.2
    (fun _ => rfl)

/-! ## C20: claim tokens in `updateProfile` -/

/-- A new e-mail address without a token that starts with "claim_email:" and the address
is answered 403 and nothing is saved. -/
theorem updateProfile_email_needs_token (db : ProfileDB) (userID : Nat)
    (payload : ProfilePayload) (user : User)
    (hname : TrimSpace payload.Username ≠ "")
    (hfree : db.usernameTaken payload.Username userID = false)
    (huser : db.first userID = some user)
    (hmail : payload.Email ≠ "") (hnew : user.Email ≠ some payload.Email)
    (htoken : HasPrefix payload.ClaimToken ("claim_email:" ++ payload.Email) = false) :
    updateProfile db (some userID) (Except.ok payload) =
      ⟨ProfileResponse.error 403 "Email verification required. Please verify OTP.",
        none⟩ := by
  simp [updateProfile, hname, hfree, huser, hmail, hnew, htoken]

/-- C20, the failing input: the claim token that `authOtpVerify` issues for the
identifier "a@b.com" is accepted by `updateProfile` for the e-mail address "a@b.co",
which is stored. -/
theorem updateProfile_accepts_longer_identifier :
    authOtpVerify (Except.ok ⟨"a@b.com", "1234"⟩) =
      Response.JSON 200 [("claim_token", Any.str "claim_email:a@b.com")] ∧
    claimToken "a@b.co" = "claim_email:a@b.co" ∧
    "claim_email:a@b.com" ≠ claimToken "a@b.co" ∧
    updateProfile sampleDB (some 7)
        (Except.ok ⟨"bob", "a@b.co", "", "claim_email:a@b.com"⟩) =
      ⟨ProfileResponse.user 200
          { sampleUser with Email := some "a@b.co", Username := "bob" },
        some { sampleUser with Email := some "a@b.co", Username := "bob" }⟩ :=
  ⟨rfl, rfl, by decide, by decide⟩

/-! ## C21: the token round trip -/

theorem splitChars_ne_nil (sep : Char) (l : List Char) : splitChars sep l ≠ [] := by
  cases l with
  | nil => simp [splitChars]
  | cons c rest =>
    simp only [splitChars]
    split
    · simp
    · split <;> simp

/-- A text without the separator is one piece. -/
theorem splitChars_of_not_mem (sep : Char) (l : List Char) (h : sep ∉ l) :
    splitChars sep l = [l] := by
  induction l with
  | nil => rfl
  | cons c rest ih =>
    simp only [List.mem_cons, not_or] at h
    have hc : ¬ c = sep := fun e => h.1 e.symm
    simp [splitChars, hc, ih h.2]

/-- The first piece ends at the first separator. -/
theorem splitChars_append (sep : Char) (a b : List Char) (h : sep ∉ a) :
    splitChars sep (a ++ sep :: b) = a :: splitChars sep b := by
  induction a with
  | nil => simp [splitChars]
  | cons c rest ih =>
    simp only [List.mem_cons, not_or] at h
    have hc : ¬ c = sep := fun e => h.1 e.symm
    simp [splitChars, hc, ih h.2]

theorem hexChar_ne (n : Nat) (h : n < 16) : hexChar n ≠ '_' ∧ hexChar n ≠ ' ' := by
  interval_cases n <;> decide

theorem encodeHex_clean (l : List Nat) : '_' ∉ encodeHex l ∧ ' ' ∉ encodeHex l := by
  induction l with
  | nil => simp [encodeHex]
  | cons v rest ih =>
    have h1 := hexChar_ne (v % 256 / 16) (by omega)
    have h2 := hexChar_ne (v % 16) (by omega)
    simp only [encodeHex, List.mem_cons, not_or]
    exact ⟨⟨h1.1.symm, h2.1.symm, ih.1⟩, ⟨h1.2.symm, h2.2.symm, ih.2⟩⟩

/-- No output of `generateUUID` has an underscore or a blank. -/
theorem generateUUID_clean (random : List Nat) :
    '_' ∉ (generateUUID random).data ∧ ' ' ∉ (generateUUID random).data :=
  encodeHex_clean _

theorem generateToken_data (user : User) (random : List Nat) :
    (generateToken user random).data =
      ['m', 'o', 'c', 'k'] ++ '_' :: (['t', 'o', 'k', 'e', 'n'] ++ '_' ::
        (user.UUID.data ++ '_' :: (generateUUID random).data)) := by
  simp [generateToken, String.data_append]

theorem Split_generateToken (user : User) (random : List Nat)
    (hu : '_' ∉ user.UUID.data) :
    Split (generateToken user random) '_' =
      ["mock", "token", user.UUID, generateUUID random] := by
  have h1 : '_' ∉ ['m', 'o', 'c', 'k'] := by decide
  have h2 : '_' ∉ ['t', 'o', 'k', 'e', 'n'] := by decide
  unfold Split
  rw [generateToken_data, splitChars_append _ _ _ h1, splitChars_append _ _ _ h2,
    splitChars_append _ _ _ hu, splitChars_of_not_mem _ _ (generateUUID_clean random).1]
  rfl

theorem Split_header (user : User) (random : List Nat) (hs : ' ' ∉ user.UUID.data) :
    Split ("Bearer " ++ generateToken user random) ' ' =
      ["Bearer", generateToken user random] := by
  have h1 : ' ' ∉ ['B', 'e', 'a', 'r', 'e', 'r'] := by decide
  have htok : ' ' ∉ (generateToken user random).data := by
    rw [generateToken_data]
    have hr := (generateUUID_clean random).2
    simp only [List.mem_append, List.mem_cons, not_or]
    refine ⟨by decide, by decide, by decide, by decide, hs, by decide, hr⟩
  have hdata : ("Bearer " ++ generateToken user random).data =
      ['B', 'e', 'a', 'r', 'e', 'r'] ++ ' ' :: (generateToken user random).data := by
    simp [String.data_append]
  unfold Split
  rw [hdata, splitChars_append _ _ _ h1, splitChars_of_not_mem _ _ htok]
  rfl

theorem HasPrefix_generateToken (user : User) (random : List Nat) :
    HasPrefix (generateToken user random) "mock_token_" = true := by
  unfold HasPrefix
  rw [generateToken_data]
  simp [List.isPrefixOf]

/-- C21: for every user whose UUID has no underscore and no blank (no output of
`generateUUID` has one), the header "Bearer " followed by `generateToken(user)` passes
the format checks of `AuthMiddleware`, and the UUID of its user query is `user.UUID`: the
run ends with the queried user in the context, or with "invalid_token_user_not_found"
when the query finds none. -/
theorem AuthMiddleware_generateToken (findByUUID : String → Option User) (user : User)
    (random : List Nat) (hu : '_' ∉ user.UUID.data) (hs : ' ' ∉ user.UUID.data) :
    ('_' ∉ (generateUUID random).data ∧ ' ' ∉ (generateUUID random).data) ∧
    (AuthMiddleware findByUUID ("Bearer " ++ generateToken user random)).queried =
      some user.UUID ∧
    AuthMiddleware findByUUID ("Bearer " ++ generateToken user random) =
      ⟨some user.UUID,
        match findByUUID user.UUID with
        | none => AuthResult.abort 401 "invalid_token_user_not_found"
        | some found => AuthResult.next found found.ID⟩ := by
  have hne : ("Bearer " ++ generateToken user random) ≠ "" := by
    intro h
    have := congrArg (fun x => x.data.length) h
    simp [String.data_append] at this
  have hrun : AuthMiddleware findByUUID ("Bearer " ++ generateToken user random) =
      ⟨some user.UUID,
        match findByUUID user.UUID with
        | none => AuthResult.abort 401 "invalid_token_user_not_found"
        | some found => AuthResult.next found found.ID⟩ := by
    simp only [AuthMiddleware, hne, if_false, Split_header user random hs]
    simp only [List.length_cons, List.length_nil, List.getD_cons_zero, ne_eq,
      not_true_eq_false, or_self, if_false, List.getD_cons_succ,
      HasPrefix_generateToken, Split_generateToken user random hu]
    cases findByUUID user.UUID <;> simp
  refine ⟨generateUUID_clean random, ?_, hrun⟩
  rw [hrun]

/-- C21 at a concrete user: the token of `sampleUser` with the bytes `sampleRandom`. -/
theorem AuthMiddleware_generateToken_witness :
    generateToken sampleUser sampleRandom =
      "mock_token_0f1e2d3c4b5a69788796a5b4c3d2e1f0_00112233445566778899aabbccddeeff" ∧
    (AuthMiddleware sampleFind ("Bearer " ++ generateToken sampleUser sampleRandom)).queried =
      some sampleUser.UUID ∧
    AuthMiddleware sampleFind ("Bearer " ++ generateToken sampleUser sampleRandom) =
      ⟨some sampleUser.UUID,
        match sampleFind sampleUser.UUID with
        | none => AuthResult.abort 401 "invalid_token_user_not_found"
        | some found => AuthResult.next found found.ID⟩ :=
  ⟨by decide,
    (AuthMiddleware_generateToken sampleFind sampleUser sampleRandom (by decide)
      (by decide)).2⟩

/-! ## C22: the `StringArray` round trip -/

/-- Reading the escaped text of an ASCII character inside a string gives the
character. -/
theorem step_escapeChar_ascii (done : List String) (acc : List Char) (c : Char)
    (h : c.toNat < 128) :
    (escapeChar c).foldl step (ScanState.inString done acc none) =
      ScanState.inString done (c :: acc) none := by
  have hc : c = Char.ofNat c.toNat := (Char.ofNat_toNat c).symm
  generalize c.toNat = n at h hc
  subst hc
  interval_cases n <;> rfl

/-- Reading the escaped text of a character beyond ASCII inside a string gives the
character. -/
theorem step_escapeChar_wide (done : List String) (acc : List Char) (c : Char)
    (h : ¬ c.toNat < 128) :
    (escapeChar c).foldl step (ScanState.inString done acc none) =
      ScanState.inString done (c :: acc) none := by
  by_cases h1 : c.toNat = 0x2028
  · have hc : c = Char.ofNat 0x2028 := by rw [← h1, Char.ofNat_toNat]
    subst hc
    rfl
  · by_cases h2 : c.toNat = 0x2029
    · have hc : c = Char.ofNat 0x2029 := by rw [← h2, Char.ofNat_toNat]
      subst hc
      rfl
    · have ne : ∀ k : Nat, k < 128 → c ≠ Char.ofNat k := by
        intro k hk e
        apply h
        rw [e]
        have : (Char.ofNat k).toNat = k := by
          interval_cases k <;> rfl
        omega
      have q1 : c ≠ '"' := ne 34 (by omega)
      have q2 : c ≠ '\\' := ne 92 (by omega)
      have q3 : c ≠ '<' := ne 60 (by omega)
      have q4 : c ≠ '>' := ne 62 (by omega)
      have q5 : c ≠ '&' := ne 38 (by omega)
      have e : escapeChar c = [c] := by
        unfold escapeChar
        simp only [q1, q2, q3, q4, q5, or_self, if_false, h1, h2, or_false]
        rw [if_neg (by omega), if_neg (by omega), if_neg (by omega), if_neg (by omega),
          if_neg (by omega), if_neg (by omega)]
      rw [e]
      have hlow : ¬ c.toNat < 0x20 := by omega
      simp only [List.foldl, step, q1, q2, if_false, hlow, flush]

theorem step_escapeChar (done : List String) (acc : List Char) (c : Char) :
    (escapeChar c).foldl step (ScanState.inString done acc none) =
      ScanState.inString done (c :: acc) none := by
  by_cases h : c.toNat < 128
  · exact step_escapeChar_ascii done acc c h
  · exact step_escapeChar_wide done acc c h

theorem step_escapeChars (done : List String) (l acc : List Char) :
    (escapeChars l).foldl step (ScanState.inString done acc none) =
      ScanState.inString done (l.reverse ++ acc) none := by
  induction l generalizing acc with
  | nil => rfl
  | cons c rest ih =>
    simp only [escapeChars, List.foldl_append, step_escapeChar, ih, List.reverse_cons,
      List.append_assoc, List.singleton_append]

/-- Reading a quoted string where an element may start gives the string as the next
element. -/
theorem step_quote (done : List String) (s : String) (st : ScanState)
    (hst : step st '"' = ScanState.inString done [] none) :
    (quote s).foldl step st = ScanState.afterElem (s :: done) := by
  simp only [quote, List.foldl_cons, List.foldl_append, hst, step_escapeChars,
    List.append_nil, List.foldl_nil]
  simp [step, flush]

theorem step_encodeElems (l : List String) (done : List String) :
    (encodeElems false l).foldl step (ScanState.afterElem done) =
      ScanState.afterElem (l.reverse ++ done) := by
  induction l generalizing done with
  | nil => rfl
  | cons s rest ih =>
    have hq := step_quote done s (ScanState.afterComma done) rfl
    simp only [encodeElems, Bool.false_eq_true, if_false, List.foldl_append,
      List.foldl_cons, List.foldl_nil]
    have hc : step (ScanState.afterElem done) ',' = ScanState.afterComma done := rfl
    rw [hc, hq, ih]
    simp

/-- Reading what `Marshal` writes for a list gives the list. -/
theorem Unmarshal_Marshal (l : List String) :
    Unmarshal_strings ⟨'[' :: encodeElems true l ++ [']']⟩ = Except.ok (some l) := by
  cases l with
  | nil => rfl
  | cons s rest =>
    have hq := step_quote [] s ScanState.afterOpen rfl
    have ho : step ScanState.start '[' = ScanState.afterOpen := rfl
    simp only [Unmarshal_strings, List.foldl_cons, ho, encodeElems, if_true,
      List.nil_append, List.foldl_append, hq, step_encodeElems, List.foldl_nil]
    simp [step, isJsonSpace]

/-- C22: for every list `sa` of strings (nil included), `Value(sa)` succeeds and `Scan`
of its result, handed over as bytes or as a string, succeeds and yields the elements of
`sa` in their order; a nil or empty list is stored as "[]" and scans back to the empty
list; `Scan` of a nil value or of empty bytes yields nil; and `Scan` of a value that is
neither bytes nor a string (an integer, a float, a boolean, a time) returns the error
"unsupported type for StringArray". -/
theorem StringArray_round_trip (sa : StringArray) :
    (∃ data, Value sa = Except.ok data ∧
      Scan (DriverValue.bytes data) = Except.ok (some (sa.getD [])) ∧
      Scan (DriverValue.text data) = Except.ok (some (sa.getD []))) ∧
    (sliceLen sa = 0 → Value sa = Except.ok "[]" ∧
      Scan (DriverValue.bytes "[]") = Except.ok (some [])) ∧
    Scan DriverValue.null = Except.ok none ∧
    Scan (DriverValue.bytes "") = Except.ok none ∧
    Scan (DriverValue.text "") = Except.ok none ∧
    (∀ n, Scan (DriverValue.int64 n) =
      Except.error "unsupported type for StringArray: int64") ∧
    (∀ x, Scan (DriverValue.float64 x) =
      Except.error "unsupported type for StringArray: float64") ∧
    (∀ b, Scan (DriverValue.bool b) =
      Except.error "unsupported type for StringArray: bool") ∧
    (∀ t, Scan (DriverValue.time t) =
      Except.error "unsupported type for StringArray: time.Time") := by
  refine ⟨?_, ?_, rfl, rfl, rfl, fun _ => rfl, fun _ => rfl, fun _ => rfl, fun _ => rfl⟩
  · cases sa with
    | none => exact ⟨"[]", rfl, rfl, rfl⟩
    | some l =>
      cases l with
      | nil => exact ⟨"[]", rfl, rfl, rfl⟩
      | cons s rest =>
        have hlen : (⟨'[' :: encodeElems true (s :: rest) ++ [']']⟩ : String).length ≠ 0 := by
          simp [String.length]
        refine ⟨⟨'[' :: encodeElems true (s :: rest) ++ [']']⟩, rfl, ?_, ?_⟩
        · simp only [Scan, hlen, if_false]
          exact Unmarshal_Marshal (s :: rest)
        · simp only [Scan, hlen, if_false]
          exact Unmarshal_Marshal (s :: rest)
  · intro h0
    cases sa with
    | none => exact ⟨rfl, rfl⟩
    | some l =>
      cases l with
      | nil => exact ⟨rfl, rfl⟩
      | cons s rest => simp [sliceLen] at h0

/-- C22 at concrete values: two tags with characters that are escaped, a text with white
space, a surrogate pair and a null element, and the nil list. -/
theorem StringArray_round_trip_witness :
    Value (some sampleTags) = Except.ok "[\"food\",\"a\\\"b\\\\c\\u003cd\\te\"]" ∧
    Scan (DriverValue.bytes "[\"food\",\"a\\\"b\\\\c\\u003cd\\te\"]") =
      Except.ok (some sampleTags) ∧
    Scan (DriverValue.text " [ \"x\\ud83d\\ude00\" , null ] ") =
      Except.ok (some ["x😀", ""]) ∧
    (Value none = Except.ok "[]" ∧ Scan (DriverValue.bytes "[]") = Except.ok (some [])) :=
  ⟨rfl, rfl, rfl, (StringArray_round_trip none).2.1 rfl⟩

end EZMoney
